import Mathlib

/-!
# Shallow embedding of `netkeiba_scraper/scraper.py`

This file embeds the core extraction / normalization logic of the
`nk-tracer` repository (module `netkeiba_scraper.scraper`) as executable
Lean definitions and proves properties of the embedded code.

Modelling conventions:
* Python `dict[str, str]` rows become association lists `List (String × String)`
  built with Python insertion/overwrite semantics (`upsert`, `ofPairs`).
* JSON values (`json.loads` output) become the inductive `J`.
* A parsed page (`BeautifulSoup` object) becomes the structure `Soup`,
  carrying exactly the query results the scraper reads from it
  (tables with their `tr`/`th`/`td` contents, `h1..h4` headings with the
  table found by `find_next("table")`, `td[cart-item]` cells,
  `option[value]` values, `a[href]` anchors, and the four race-name
  candidate selector texts).  Node text fields hold the result of
  `get_text(" ", strip=True)`.
* Network and library effects (`requests` fetches + `BeautifulSoup`
  parsing, the JSON API call, `datetime.now()`, `urllib.parse.urljoin`)
  become an explicit environment `Env`; fallible fetches return
  `Except String …` whose error string models `str(exc)`.
* Python machine-free integers become `Nat`; character predicates are
  modelled over ASCII (the scraper only feeds it ASCII digits/URLs).
-/

namespace NkTracer

/-! ## Python string / list primitives -/

/-- Characters stripped by Python `str.strip()` / accepted by `float()`
whitespace skipping (ASCII model). -/
def isPySpace (c : Char) : Bool :=
  c = ' ' || c = '\t' || c = '\n' || c = '\r' || c = '\x0b' || c = '\x0c'

/-- Python `str.strip()` (ASCII-whitespace model): drop whitespace from
the front, then from the back. -/
def pyStrip (s : String) : String :=
  String.mk (List.rdropWhile isPySpace (s.toList.dropWhile isPySpace))

/-- Python `s.replace(",", "")`: the pattern is a single character, so the
replacement is exactly dropping every comma. -/
def removeCommas (s : String) : String :=
  String.mk (s.toList.filter (fun c => c ≠ ','))

/-- Split on a (nonempty) separator, left to right, non-overlapping —
Python `s.split(sep)` on character lists.  `fuel` is an upper bound on the
scanned length (the callers pass the list's length). -/
def splitOnAux (sep : List Char) : Nat → List Char → List Char → List (List Char)
  | 0, cs, cur => [cur ++ cs]
  | fuel + 1, cs, cur =>
    match cs with
    | [] => [cur]
    | c :: rest =>
      if sep.isPrefixOf cs then
        cur :: splitOnAux sep fuel (cs.drop sep.length) []
      else
        splitOnAux sep fuel rest (cur ++ [c])

/-- Python `s.split(sep)` for a nonempty separator. -/
def pySplitOn (s sep : String) : List String :=
  (splitOnAux sep.toList s.toList.length s.toList []).map String.mk

/-- `sep.join(xs)`. -/
def strIntercalate (sep : String) (xs : List String) : String :=
  String.mk (List.intercalate sep.toList (xs.map String.toList))

/-- Python `s.replace(pat, repl)` for a nonempty pattern
(`repl.join(s.split(pat))`). -/
def pyReplace (s pat repl : String) : String :=
  strIntercalate repl (pySplitOn s pat)

/-- Python `s.isdigit()` (ASCII model): nonempty and all decimal digits. -/
def pyIsdigit (s : String) : Bool :=
  s ≠ "" && s.toList.all Char.isDigit

/-- Python `int(s)` on a nonempty all-digit string. -/
def pyInt (s : String) : Nat :=
  s.toList.foldl (fun a c => a * 10 + (c.toNat - 48)) 0

/-- Digit character for `n < 10`. -/
def digitChar (n : Nat) : Char := Char.ofNat (48 + n)

/-- Python `str(n)` for `n < 100`, zero padded to width 2
(models `strftime("%m")` / `strftime("%d")`). -/
def pad2 (n : Nat) : String :=
  String.mk [digitChar (n / 10 % 10), digitChar (n % 10)]

/-- Python `str(n)` for `n < 10000`, zero padded to width 4
(models `strftime("%Y")`; `datetime` years are always ≤ 9999). -/
def pad4 (n : Nat) : String :=
  String.mk [digitChar (n / 1000 % 10), digitChar (n / 100 % 10),
    digitChar (n / 10 % 10), digitChar (n % 10)]

/-- Decimal digits of a natural number, fueled so that the recursion is
structural (the fuel is an upper bound on the digit count; callers pass
`n` itself). -/
def natDigitsAux : Nat → Nat → List Char
  | 0, n => [digitChar n]
  | fuel + 1, n =>
    if n < 10 then [digitChar n]
    else natDigitsAux fuel (n / 10) ++ [digitChar (n % 10)]

/-- Decimal print of a natural number (models Python `str(int)`),
on the digit list level. -/
def natDigits (n : Nat) : List Char := natDigitsAux n n

/-- Python `str(int(s))` for an all-digit string `s`: re-print the value,
which strips leading zeros. -/
def stripZeros (s : String) : String := String.mk (natDigits (pyInt s))

/-- Python `str.split()` (no argument): split on whitespace runs,
dropping empty pieces.  `cur` accumulates the current word. -/
def pySplitWsAux : List Char → List Char → List String
  | [], cur => if cur.isEmpty then [] else [String.mk cur]
  | c :: rest, cur =>
    if isPySpace c then
      if cur.isEmpty then pySplitWsAux rest []
      else String.mk cur :: pySplitWsAux rest []
    else pySplitWsAux rest (cur ++ [c])

/-- Python `str.split()` (no argument). -/
def pySplitWs (cs : List Char) : List String := pySplitWsAux cs []

/-- Python `" ".join(s.split())`: collapse internal whitespace. -/
def collapseWs (s : String) : String :=
  strIntercalate " " (pySplitWs s.toList)

/-- Python substring test `pat in s`, for a nonempty pattern. -/
def pyContains (s pat : String) : Bool :=
  (pySplitOn s pat).length ≠ 1

/-! ## Python dict model (insertion ordered, later writes update in place) -/

/-- `d[k] = v` on an insertion-ordered dict: update the existing entry in
place, else append. -/
def upsert {α : Type} (k : String) (v : α) : List (String × α) → List (String × α)
  | [] => [(k, v)]
  | (k', v') :: rest => if k' = k then (k, v) :: rest else (k', v') :: upsert k v rest

/-- Build a dict from a pair sequence (duplicate keys: last value wins,
first position kept) — the semantics of a Python dict comprehension /
`dict(zip(...))`. -/
def ofPairs {α : Type} (ps : List (String × α)) : List (String × α) :=
  ps.foldl (fun acc p => upsert p.1 p.2 acc) []

/-- Python `d.get(k)`. -/
def alistGet {α : Type} : List (String × α) → String → Option α
  | [], _ => none
  | (k', v) :: rest, k => if k' = k then some v else alistGet rest k

/-- Python `d.get(k, dflt)` for string dicts. -/
def dictGetD (d : List (String × String)) (k dflt : String) : String :=
  (alistGet d k).getD dflt

/-- Python `d.setdefault(k, v)`. -/
def setdefault {α : Type} (d : List (String × α)) (k : String) (v : α) :
    List (String × α) :=
  match alistGet d k with
  | some _ => d
  | none => d ++ [(k, v)]

/-- Python `d.pop(k, dflt)` for string dicts: the removed value (or the
default) together with the remaining dict. -/
def dictPop (d : List (String × String)) (k dflt : String) :
    String × List (String × String) :=
  match alistGet d k with
  | some v => (v, d.filter (fun p => p.1 ≠ k))
  | none => (dflt, d)

/-- A scraped row / record: Python `dict[str, str]`. -/
abbrev Dict := List (String × String)

/-! ## JSON values (`json.loads` output)

JSON numbers are modelled as integers; the odds API delivers its decimal
odds as JSON strings, and no claim depends on float-typed JSON leaves. -/

inductive J : Type where
  | null : J
  | b : Bool → J
  | num : Int → J
  | s : String → J
  | arr : List J → J
  | obj : List (String × J) → J

mutual

/-- Python `repr` of a JSON value (only reachable through `str()` of a
nested list/dict; string escaping is not modelled). -/
def J.reprStr : J → String
  | .null => "None"
  | .b true => "True"
  | .b false => "False"
  | .num n => toString n
  | .s v => "'" ++ v ++ "'"
  | .arr xs => "[" ++ strIntercalate ", " (J.reprStrList xs) ++ "]"
  | .obj kvs => "\x7b" ++ strIntercalate ", " (J.reprStrPairs kvs) ++ "\x7d"

/-- `repr` of each element of a JSON list. -/
def J.reprStrList : List J → List String
  | [] => []
  | x :: xs => x.reprStr :: J.reprStrList xs

/-- `repr` of each `key: value` entry of a JSON dict. -/
def J.reprStrPairs : List (String × J) → List String
  | [] => []
  | p :: rest => ("'" ++ p.1 ++ "': " ++ p.2.reprStr) :: J.reprStrPairs rest

end

/-- Python `str()` of a JSON value. -/
def J.toStr : J → String
  | .null => "None"
  | .b true => "True"
  | .b false => "False"
  | .num n => toString n
  | .s v => v
  | .arr xs => J.reprStr (.arr xs)
  | .obj kvs => J.reprStr (.obj kvs)

/-- Python `x is None` on a JSON value. -/
def J.isNull : J → Bool
  | .null => true
  | _ => false

/-- Python truthiness of a JSON value. -/
def J.truthy : J → Bool
  | .null => false
  | .b v => v
  | .num n => n ≠ 0
  | .s v => v ≠ ""
  | .arr xs => !xs.isEmpty
  | .obj kvs => !kvs.isEmpty

/-- `payload.get(k)` on a JSON value known to be a dict (`none` otherwise;
`json.loads` yields unique keys, so first-match lookup is dict lookup). -/
def J.get : J → String → Option J
  | .obj kvs, k => alistGet kvs k
  | _, _ => none

/-! ## Python `float()` acceptance

`_parse_numeric_odds` only compares the `float(text)` result against
`None`, so the embedding needs acceptance, not the value.  The grammar is
CPython's: optional sign, then `inf`/`infinity`/`nan` (case-insensitive)
or a decimal number `digits [. digits] [exp] | . digits [exp]`, where each
digit group may contain single underscores strictly between digits. -/

/-- Consume a digit group with embedded single underscores
(`digit (digit | "_" digit)*`); `none` when no leading digit. -/
def parseDigitsU : List Char → Option (List Char)
  | c :: rest => if c.isDigit then some (parseDigitsU.go rest) else none
  | [] => none
where
  go : List Char → List Char
    | '_' :: c :: rest => if c.isDigit then go rest else '_' :: c :: rest
    | c :: rest => if c.isDigit then go rest else c :: rest
    | [] => []

/-- Optional exponent part, then end of input. -/
def floatExpEnd : List Char → Bool
  | [] => true
  | 'e' :: rest =>
    let rest := match rest with
      | '+' :: r => r
      | '-' :: r => r
      | r => r
    match parseDigitsU rest with
    | some [] => true
    | _ => false
  | _ => false

/-- Decimal-number part of the `float()` grammar (sign already removed,
characters already lowercased). -/
def floatNumber (cs : List Char) : Bool :=
  match parseDigitsU cs with
  | some rest =>
    match rest with
    | '.' :: r2 => floatExpEnd ((parseDigitsU r2).getD r2)
    | r2 => floatExpEnd r2
  | none =>
    match cs with
    | '.' :: r2 =>
      match parseDigitsU r2 with
      | some r3 => floatExpEnd r3
      | none => false
    | _ => false

/-- Does Python `float(s)` succeed? -/
def pyFloatAccepts (s : String) : Bool :=
  let cs := (pyStrip s).toList.map Char.toLower
  let cs := match cs with
    | '+' :: r => r
    | '-' :: r => r
    | r => r
  if cs = ['i', 'n', 'f'] ∨ cs = ['i', 'n', 'f', 'i', 'n', 'i', 't', 'y'] ∨
      cs = ['n', 'a', 'n'] then true
  else floatNumber cs

/-! ## The odds-range regular expression

`re.match(r"^\s*([0-9]+(?:\.[0-9]+)?)\s*-\s*([0-9]+(?:\.[0-9]+)?)\s*$", text)`
as a hand-rolled matcher (`\s` modelled as ASCII whitespace; the `$`
before-final-newline subtlety is absorbed by the trailing `\s*`). -/

/-- Consume `[0-9]+(?:\.[0-9]+)?`; `none` when no leading digit. -/
def parseDecimal (cs : List Char) : Option (List Char) :=
  match cs with
  | c :: rest =>
    if c.isDigit then
      let rest := rest.dropWhile Char.isDigit
      match rest with
      | '.' :: d :: r2 =>
        if d.isDigit then some (r2.dropWhile Char.isDigit) else some rest
      | _ => some rest
    else none
  | [] => none

/-- The full range regex, anchored on both sides. -/
def rangeRegexMatch (s : String) : Bool :=
  let cs := s.toList.dropWhile isPySpace
  match parseDecimal cs with
  | none => false
  | some cs =>
    match cs.dropWhile isPySpace with
    | '-' :: cs =>
      match parseDecimal (cs.dropWhile isPySpace) with
      | none => false
      | some cs => cs.dropWhile isPySpace = []
    | _ => false

/-! ## Parsed-page model -/

/-- A `td` cell: its `get_text(" ", strip=True)` text, its `cart-item`
attribute (when present) and the text of a nested `span#odds` (when
present). -/
structure Cell where
  text : String
  cartItem : Option String := none
  oddsSpan : Option String := none
deriving DecidableEq

/-- A `tr` row: texts of its `th` cells and its `td` cells. -/
structure Tr where
  th : List String := []
  td : List Cell := []
deriving DecidableEq

/-- A `table` element: its `tr` rows in document order, the `th` texts of
`select_one("thead tr")` (when such a row exists) and the table's
`get_text(" ", strip=True)` text. -/
structure Table where
  rows : List Tr := []
  theadTh : Option (List String) := none
  fullText : String := ""
deriving Inhabited, DecidableEq

/-- An `h1`–`h4` heading: its text and the table located by
`heading.find_next("table")` (when one follows). -/
structure Heading where
  text : String
  nextTable : Option Table := none

/-- A parsed page (`BeautifulSoup` object), carrying the results of every
selector query the scraper performs, in document order. -/
structure Soup where
  /-- `soup.select("table")`. -/
  tables : List Table := []
  /-- `soup.select("h1, h2, h3, h4")`, each with its `find_next("table")`. -/
  headings : List Heading := []
  /-- `soup.select("td[cart-item]")`. -/
  cartCells : List Cell := []
  /-- `value` attributes of `soup.select("option[value]")`. -/
  options : List String := []
  /-- `(text, href)` of `soup.select("a[href]")`. -/
  anchors : List (String × String) := []
  /-- text of `soup.select_one("h1")`, absent when no node matches. -/
  h1 : Option String := none
  /-- text of `soup.select_one(".RaceName")`. -/
  raceName : Option String := none
  /-- text of `soup.select_one(".RaceData01")`. -/
  raceData01 : Option String := none
  /-- text of `soup.select_one("title")`. -/
  title : Option String := none

/-! ## Scraper constants -/

/-- `BET_TYPES`: the 8 recognized bet types (win, place, bracket quinella,
quinella, quinella place, exacta, trio, trifecta). -/
def BET_TYPES : List String :=
  ["単勝", "複勝", "枠連", "馬連", "ワイド", "馬単", "三連複", "三連単"]

/-- `ODDS_TYPE_MAP`: per-bet-type token of the HTML odds pages. -/
def ODDS_TYPE_MAP : List (String × String) :=
  [("単勝", "b1"), ("複勝", "b1"), ("枠連", "b2"), ("馬連", "b4"),
   ("ワイド", "b5"), ("馬単", "b6"), ("三連複", "b7"), ("三連単", "b8")]

/-- `API_ODDS_TYPE_MAP`: per-bet-type numeric token of the JSON API. -/
def API_ODDS_TYPE_MAP : List (String × String) :=
  [("単勝", "1"), ("複勝", "2"), ("枠連", "3"), ("馬連", "4"),
   ("ワイド", "5"), ("馬単", "6"), ("三連複", "7"), ("三連単", "8")]

/-! ## URL query parsing (`urllib.parse` pieces used by `_extract_race_id`) -/

/-- Hex digit value. -/
def hexVal (c : Char) : Option Nat :=
  if c.isDigit then some (c.toNat - 48)
  else if 'a' ≤ c ∧ c ≤ 'f' then some (c.toNat - 87)
  else if 'A' ≤ c ∧ c ≤ 'F' then some (c.toNat - 55)
  else none

/-- The UTF-8 encoding of one character, as byte values. -/
def charUtf8Bytes (c : Char) : List Nat :=
  let n := c.toNat
  if n < 0x80 then [n]
  else if n < 0x800 then [0xC0 + n / 64, 0x80 + n % 64]
  else if n < 0x10000 then
    [0xE0 + n / 4096, 0x80 + n / 64 % 64, 0x80 + n % 64]
  else
    [0xF0 + n / 262144, 0x80 + n / 4096 % 64, 0x80 + n / 64 % 64, 0x80 + n % 64]

/-- Percent-decode to a byte list: `%XX` becomes the byte `XX`, every
other character contributes its UTF-8 bytes.  Fueled for structural
recursion (fuel = list length at the call site). -/
def percentBytesAux : Nat → List Char → List Nat
  | 0, _ => []
  | fuel + 1, cs =>
    match cs with
    | [] => []
    | c :: rest =>
      if c = '%' then
        match rest with
        | a :: b :: rest2 =>
          match hexVal a, hexVal b with
          | some ha, some hb => (ha * 16 + hb) :: percentBytesAux fuel rest2
          | _, _ => charUtf8Bytes c ++ percentBytesAux fuel rest
        | _ => charUtf8Bytes c ++ percentBytesAux fuel rest
      else charUtf8Bytes c ++ percentBytesAux fuel rest

/-- Percent-decode a character list to bytes. -/
def percentBytes (cs : List Char) : List Nat := percentBytesAux cs.length cs

/-- Decode a UTF-8 byte list to characters, one replacement character per
offending byte (close approximation of CPython `errors="replace"`; the
claims never exercise invalid input).  Fueled for structural recursion
(fuel = list length at the call site). -/
def utf8DecodeAux : Nat → List Nat → List Char
  | 0, _ => []
  | fuel + 1, bs =>
    match bs with
    | [] => []
    | b :: rest =>
      if b < 0x80 then Char.ofNat b :: utf8DecodeAux fuel rest
      else if 0xC2 ≤ b ∧ b ≤ 0xDF then
        match rest with
        | c1 :: rest2 =>
          if 0x80 ≤ c1 ∧ c1 ≤ 0xBF then
            Char.ofNat ((b - 0xC0) * 64 + (c1 - 0x80)) :: utf8DecodeAux fuel rest2
          else '�' :: utf8DecodeAux fuel rest
        | [] => ['�']
      else if 0xE0 ≤ b ∧ b ≤ 0xEF then
        match rest with
        | c1 :: c2 :: rest2 =>
          if (0x80 ≤ c1 ∧ c1 ≤ 0xBF) ∧ (0x80 ≤ c2 ∧ c2 ≤ 0xBF) ∧
              (b ≠ 0xE0 ∨ 0xA0 ≤ c1) ∧ (b ≠ 0xED ∨ c1 ≤ 0x9F) then
            Char.ofNat ((b - 0xE0) * 4096 + (c1 - 0x80) * 64 + (c2 - 0x80)) ::
              utf8DecodeAux fuel rest2
          else '�' :: utf8DecodeAux fuel rest
        | _ => '�' :: utf8DecodeAux fuel rest
      else if 0xF0 ≤ b ∧ b ≤ 0xF4 then
        match rest with
        | c1 :: c2 :: c3 :: rest2 =>
          if (0x80 ≤ c1 ∧ c1 ≤ 0xBF) ∧ (0x80 ≤ c2 ∧ c2 ≤ 0xBF) ∧
              (0x80 ≤ c3 ∧ c3 ≤ 0xBF) ∧ (b ≠ 0xF0 ∨ 0x90 ≤ c1) ∧
              (b ≠ 0xF4 ∨ c1 ≤ 0x8F) then
            Char.ofNat ((b - 0xF0) * 262144 + (c1 - 0x80) * 4096 +
              (c2 - 0x80) * 64 + (c3 - 0x80)) :: utf8DecodeAux fuel rest2
          else '�' :: utf8DecodeAux fuel rest
        | _ => '�' :: utf8DecodeAux fuel rest
      else '�' :: utf8DecodeAux fuel rest

/-- Decode a UTF-8 byte list, replacement characters for bad bytes. -/
def utf8Decode (bs : List Nat) : List Char := utf8DecodeAux bs.length bs

/-- `urllib.parse.unquote(s)` (UTF-8). -/
def pyUnquote (s : String) : String :=
  String.mk (utf8Decode (percentBytes s.toList))

/-- `urllib.parse.unquote_plus(s)`: `+` becomes a space, then unquote. -/
def unquote_plus (s : String) : String :=
  pyUnquote (pyReplace s "+" " ")

/-- The `query` component of `urlparse(url)`: the part after the first
`?` of the part before the first `#`. -/
def urlQuery (url : String) : String :=
  let beforeFrag := (pySplitOn url "#").headD ""
  match pySplitOn beforeFrag "?" with
  | [] => ""
  | [_] => ""
  | _ :: rest => strIntercalate "?" rest

/-- `urllib.parse.parse_qs(query)` restricted to the first value of one
key, composed with `[None])[0]` — i.e. `_extract_race_id`'s use of it:
segments split on `&`, empty segments and segments without `=` or with an
empty raw value skipped, names and values percent-decoded. -/
def parseQsFirst (query key : String) : Option String :=
  (pySplitOn query "&").findSome? (fun seg =>
    if seg = "" then none
    else
      match pySplitOn seg "=" with
      | [] => none
      | [_] => none
      | name :: vals =>
        let rawVal := strIntercalate "=" vals
        if rawVal = "" then none
        else if unquote_plus name = key then some (unquote_plus rawVal)
        else none)

/-- `_extract_race_id(url)`: the first `race_id` query value. -/
def extract_race_id (url : String) : Option String :=
  parseQsFirst (urlQuery url) "race_id"

/-! ## Race date -/

/-- Gregorian leap year (`datetime`'s calendar). -/
def isLeap (y : Nat) : Bool :=
  (y % 4 = 0 ∧ y % 100 ≠ 0) ∨ y % 400 = 0

/-- Days in a month. -/
def daysInMonth (y m : Nat) : Nat :=
  if m = 2 then (if isLeap y then 29 else 28)
  else if m = 4 ∨ m = 6 ∨ m = 9 ∨ m = 11 then 30
  else 31

/-- `datetime.strptime(s, "%Y%m%d")` on an 8-digit string: the year
(4 digits, ≥ 1), month and day must form a valid calendar date. -/
def strptimeYMD (digits8 : List Char) : Option (Nat × Nat × Nat) :=
  let y := pyInt (String.mk (digits8.take 4))
  let m := pyInt (String.mk ((digits8.drop 4).take 2))
  let d := pyInt (String.mk (digits8.drop 6))
  if 1 ≤ y ∧ 1 ≤ m ∧ m ≤ 12 ∧ 1 ≤ d ∧ d ≤ daysInMonth y m then
    some (y, m, d)
  else none

/-- `_extract_race_date(race_id)`: digits of the identifier, first 8 must
parse as `%Y%m%d`, reformatted via `strftime("%Y-%m-%d")`. -/
def extract_race_date : Option String → Option String
  | none => none
  | some rid =>
    if rid = "" then none  -- `if not race_id`
    else
      let digits := rid.toList.filter Char.isDigit
      if digits.length < 8 then none
      else
        match strptimeYMD (digits.take 8) with
        | some (y, m, d) => some (pad4 y ++ "-" ++ pad2 m ++ "-" ++ pad2 d)
        | none => none

/-- `datetime.strptime(s, "%Y-%m-%d")` (model): three dash-separated
digit groups of at most 4/2/2 digits forming a valid date. -/
def strptimeDashed (s : String) : Option (Nat × Nat × Nat) :=
  match pySplitOn s "-" with
  | [ys, ms, ds] =>
    if pyIsdigit ys ∧ ys.length ≤ 4 ∧ pyIsdigit ms ∧ ms.length ≤ 2 ∧
        pyIsdigit ds ∧ ds.length ≤ 2 then
      let y := pyInt ys
      let m := pyInt ms
      let d := pyInt ds
      if 1 ≤ y ∧ 1 ≤ m ∧ m ≤ 12 ∧ 1 ≤ d ∧ d ≤ daysInMonth y m then
        some (y, m, d)
      else none
    else none
  | _ => none

/-- Date comparison `race_dt.date() > today.date()`. -/
def dateGT (a b : Nat × Nat × Nat) : Bool :=
  a.1 > b.1 ∨ (a.1 = b.1 ∧ (a.2.1 > b.2.1 ∨ (a.2.1 = b.2.1 ∧ a.2.2 > b.2.2)))

/-! ## URL builders -/

/-- `_build_odds_type_url(race_id, bet_type)`. -/
def build_odds_type_url (raceId : Option String) (bet_type : String) : Option String :=
  match raceId with
  | none => none
  | some rid =>
    if rid = "" then none  -- `if not race_id`
    else
      match alistGet ODDS_TYPE_MAP bet_type with
      | none => none
      | some code =>
        some ("https://race.netkeiba.com/odds/index.html?type=" ++ code ++
          "&race_id=" ++ rid)

/-- `_build_abroad_type_url(race_id, bet_type)`. -/
def build_abroad_type_url (raceId : Option String) (bet_type : String) : Option String :=
  match raceId with
  | none => none
  | some rid =>
    if rid = "" then none
    else
      match alistGet ODDS_TYPE_MAP bet_type with
      | none => none
      | some code =>
        some ("https://race.netkeiba.com/odds/abroad.html?type=" ++ code ++
          "&race_id=" ++ rid)

/-! ## Odds text normalization and availability -/

/-- `_normalize_odds_value(value)`: strip thousands separators, trim. -/
def normalize_odds_value (value : String) : String :=
  pyStrip (removeCommas value)

/-- `_parse_numeric_odds(value)`: `None` for empty/placeholder text, text
whose comma-stripped form still contains `-`, or text `float()` rejects;
otherwise the comma-stripped numeral (the caller only tests `is not None`). -/
def parse_numeric_odds (value : String) : Option String :=
  let text := pyStrip value
  if text = "" ∨ text = "-" ∨ text = "--" ∨ text = "---.-" then none
  else
    let text := removeCommas text
    if text.toList.contains '-' then none
    else if pyFloatAccepts text then some text
    else none

/-- `_has_available_odds(value)`. -/
def has_available_odds (value : String) : Bool :=
  let text := pyStrip value
  if text = "" ∨ text = "-" ∨ text = "--" ∨ text = "---.-" then false
  else if (parse_numeric_odds text).isSome then true
  else rangeRegexMatch text

/-! ## Combination sort key -/

/-- `_combo_sort_key(combo)`: the numeric tuple of the digit pieces. -/
def combo_sort_key (combo : String) : List Nat :=
  ((pySplitOn combo "-").filter (fun x => pyIsdigit x)).map pyInt

/-- Python tuple `<=` on numeric tuples (lexicographic, a prefix is
smaller). -/
def tupleLe : List Nat → List Nat → Bool
  | [], _ => true
  | _ :: _, [] => false
  | a :: as', b :: bs' =>
    if a < b then true else if b < a then false else tupleLe as' bs'

/-- Stable insertion into an ascending list: the new element goes after
every element that is `≤` it. -/
def sortInsert {α : Type} (le : α → α → Bool) (x : α) : List α → List α
  | [] => [x]
  | y :: ys => if le y x then y :: sortInsert le x ys else x :: y :: ys

/-- Python's stable ascending `rows.sort(key=...)` (insertion sort:
stable and ascending, hence extensionally the sort Python performs). -/
def sortByKey {α : Type} (key : α → List Nat) (rows : List α) : List α :=
  rows.foldl (fun acc x => sortInsert (fun a b => tupleLe (key a) (key b)) x acc) []

/-! ## Generic table parsing -/

/-- The header list `_parse_table` settles on: `th` texts of the first
row, else the `th` texts of `select_one("thead tr")` when that exists. -/
def tableHeaders (r0 : Tr) (t : Table) : List String :=
  if r0.th ≠ [] then r0.th else (t.theadTh.getD [])

/-- `_parse_table(table)`: one record per data row with at least one `td`
cell — named fields when the header count matches, else positional
`col_N` keys. -/
def parse_table (t : Table) : List Dict :=
  match t.rows with
  | [] => []
  | r0 :: rest =>
    let headers := tableHeaders r0 t
    rest.filterMap (fun r =>
      if r.td.isEmpty then none
      else
        let values := r.td.map (·.text)
        if headers ≠ [] ∧ headers.length = values.length then
          some (ofPairs (headers.zip values))
        else
          some (values.enum.map (fun p => ("col_" ++ toString (p.1 + 1), p.2))))

/-! ## Entry-row helpers -/

/-- `_extract_horse_number_from_entry_row(row)`. -/
def extract_horse_number_from_entry_row (row : Dict) : String :=
  let normalized := ofPairs (row.map (fun p => (pyReplace p.1 " " "", pyStrip p.2)))
  match ["馬番", "col_2", "col_1"].findSome? (fun k =>
      let value := dictGetD normalized k ""
      if pyIsdigit value then some (stripZeros value) else none) with
  | some v => v
  | none => ""

/-- `_extract_horse_name_from_entry_row(row)`. -/
def extract_horse_name_from_entry_row (row : Dict) : String :=
  let normalized := ofPairs (row.map (fun p => (pyReplace p.1 " " "", pyStrip p.2)))
  match ["馬名", "col_4", "col_3"].findSome? (fun k =>
      let value := dictGetD normalized k ""
      if value ≠ "" then some value else none) with
  | some v => v
  | none => ""

/-! ## Cart-item (combination cell) extraction -/

/-- One character step of the `re.findall(r"_(\d+)", s)` scan: the state
is the matches found so far and, when a capture is open, its digits. -/
def findNumsStep (st : List String × Option (List Char)) (c : Char) :
    List String × Option (List Char) :=
  match st.2 with
  | some ds =>
    if c.isDigit then (st.1, some (ds ++ [c]))
    else
      let acc := if ds ≠ [] then st.1 ++ [String.mk ds] else st.1
      (acc, if c = '_' then some [] else none)
  | none => (st.1, if c = '_' then some [] else none)

/-- `re.findall(r"_(\d+)", s)` (ASCII digits): every maximal digit run
directly preceded by an underscore, left to right. -/
def findNums (cs : List Char) : List String :=
  let fin := cs.foldl findNumsStep ([], none)
  match fin.2 with
  | some ds => if ds ≠ [] then fin.1 ++ [String.mk ds] else fin.1
  | none => fin.1

/-- Arity expected by `_extract_cart_items`: 2 for bracket quinella /
quinella / quinella place / exacta, 3 otherwise (trio / trifecta). -/
def cartExpectedCount (bet_type : String) : Nat :=
  if bet_type = "枠連" ∨ bet_type = "馬連" ∨ bet_type = "ワイド" ∨ bet_type = "馬単"
  then 2 else 3

/-- The single-cell body of `_extract_cart_items`' scan loop: `none` when
the cell is skipped (fewer trailing numeric tokens than the arity). -/
def cartRow (bet_type : String) (include_key : Bool) (cell : Cell) : Option Dict :=
  let expected_count := cartExpectedCount bet_type
  let cart_item := cell.cartItem.getD ""
  let numbers := findNums cart_item.toList
  let combo_numbers := numbers.drop (numbers.length - expected_count)
  if combo_numbers.length ≠ expected_count then none
  else
    let odds := match cell.oddsSpan with
      | some t => t
      | none => collapseWs cell.text
    let row : Dict := [("組み合わせ", strIntercalate "-" combo_numbers),
      ("オッズ", normalize_odds_value odds)]
    some (if include_key then row ++ [("_cart_item", cart_item)] else row)

/-- `_extract_cart_items(soup, bet_type, include_key)`: scan
`td[cart-item]` cells, deduplicate by raw attribute (or combination) with
last-write-wins, sort by decoded numeric tuple. -/
def extract_cart_items (soup : Soup) (bet_type : String)
    (include_key : Bool := false) : List Dict :=
  let rows := soup.cartCells.filterMap (cartRow bet_type include_key)
  let dedup := rows.foldl (fun acc row =>
    let key := match alistGet row "_cart_item" with
      | some v => if v ≠ "" then v else dictGetD row "組み合わせ" ""
      | none => dictGetD row "組み合わせ" ""
    upsert key row acc) []
  let merged := dedup.map (·.2)
  sortByKey (fun row => combo_sort_key (dictGetD row "組み合わせ" "")) merged

/-! ## JSON-API odds rows -/

/-- `[combo_str[i : i + 2] for i in range(0, len(combo_str), 2)]`. -/
def chunk2 : List Char → List String
  | [] => []
  | [a] => [String.mk [a]]
  | a :: b :: rest => String.mk [a, b] :: chunk2 rest

/-- The `horse_name_by_no` map built from the entries table. -/
def horseNameByNo (entries : List Dict) : Dict :=
  entries.foldl (fun acc row =>
    let no := extract_horse_number_from_entry_row row
    if pyIsdigit no then upsert no (extract_horse_name_from_entry_row row) acc
    else acc) []

/-- Shared `odds_value` computation of the API branches: first element
(as stripped `str()`, empty for `None`), with a `"low - high"` pair when
`pair` is set and the second element is present, non-`None` and neither
empty nor `"0"`. -/
def apiOddsValue (values : List J) (pair : Bool) : String :=
  let v0 := values.headD .null
  let base := if ¬ v0.isNull then pyStrip v0.toStr else ""
  if pair ∧ values.length ≥ 2 then
    match values.get? 1 with
    | some v1 =>
      if ¬ v1.isNull ∧ pyStrip v1.toStr ≠ "" ∧ pyStrip v1.toStr ≠ "0" then
        pyStrip v0.toStr ++ " - " ++ pyStrip v1.toStr
      else base
    | none => base
  else base

/-- Singles (win/place) loop body of `_extract_odds_rows_from_api_payload`. -/
def apiSingleRow (bet_type : String) (names : Dict) (p : String × J) : Option Dict :=
  let horse_no := if pyIsdigit p.1 then stripZeros p.1 else p.1
  match p.2 with
  | .arr values =>
    if values.isEmpty then none
    else
      let odds_value := apiOddsValue values (bet_type = "複勝")
      some [("馬番", horse_no), ("馬名", dictGetD names horse_no ""),
        ("オッズ", normalize_odds_value odds_value)]
  | _ => none

/-- Combination loop body of `_extract_odds_rows_from_api_payload`. -/
def apiComboRow (bet_type : String) (combo_size : Nat) (p : String × J) : Option Dict :=
  match p.2 with
  | .arr values =>
    if values.isEmpty then none
    else
      let parts := chunk2 p.1.toList
      if parts.length ≠ combo_size ∨ ¬ parts.all (fun part => pyIsdigit part) then none
      else
        let combo := strIntercalate "-" (parts.map stripZeros)
        let odds_value := apiOddsValue values (bet_type = "ワイド")
        some [("組み合わせ", combo), ("オッズ", normalize_odds_value odds_value)]
  | _ => none

/-- Sort key of the API singles rows:
`int(row["馬番"])` when all digits, else `9999`. -/
def singlesSortKey (row : Dict) : List Nat :=
  [if pyIsdigit (dictGetD row "馬番" "") then pyInt (dictGetD row "馬番" "9999") else 9999]

/-- The typed sub-dict `payload["data"]["odds"][api_type]` when every
level is a dict and the last is nonempty. -/
def typedOdds (payload : J) (api_type : String) : Option (List (String × J)) :=
  match payload.get "data" with
  | some data =>
    match data.get "odds" with
    | some odds =>
      match odds.get api_type with
      | some (.obj kvs) => if kvs.isEmpty then none else some kvs
      | _ => none
    | none => none
  | none => none

/-- `_extract_odds_rows_from_api_payload(payload, bet_type, entries)`. -/
def extract_odds_rows_from_api_payload (payload : J) (bet_type : String)
    (entries : List Dict) : List Dict :=
  match alistGet API_ODDS_TYPE_MAP bet_type with
  | none => []
  | some api_type =>
    match typedOdds payload api_type with
    | none => []
    | some typed_odds =>
      if bet_type = "単勝" ∨ bet_type = "複勝" then
        let names := horseNameByNo entries
        sortByKey singlesSortKey (typed_odds.filterMap (apiSingleRow bet_type names))
      else
        let combo_size := if bet_type = "三連複" ∨ bet_type = "三連単" then 3 else 2
        sortByKey (fun row => combo_sort_key (dictGetD row "組み合わせ" ""))
          (typed_odds.filterMap (apiComboRow bet_type combo_size))

/-! ## Heading-routed HTML extraction -/

/-- `_split_tansho_fukusho(rows)`: split a combined win/place table into
win rows and place rows (shared base fields, per-column odds). -/
def split_tansho_fukusho (rows : List Dict) : List Dict × List Dict :=
  let pairs := rows.map (fun row =>
    let normalized := ofPairs (row.map (fun p => (pyReplace p.1 " " "", p.2)))
    let base : Dict := [("人気", dictGetD normalized "人気" ""),
      ("ゲート", dictGetD normalized "ゲート" ""),
      ("馬番", dictGetD normalized "馬番" ""),
      ("馬名", dictGetD normalized "馬名" "")]
    let tansho_value := dictGetD normalized "単勝オッズ" (dictGetD normalized "単勝" "")
    let fukusho_value := dictGetD normalized "複勝オッズ" (dictGetD normalized "複勝" "")
    (base ++ [("オッズ", normalize_odds_value tansho_value)],
     base ++ [("オッズ", normalize_odds_value fukusho_value)]))
  (pairs.map (·.1), pairs.map (·.2))

/-- `_split_umaren_wide(rows)`: split a combined quinella/quinella-place
table. -/
def split_umaren_wide (rows : List Dict) : List Dict × List Dict :=
  let pairs := rows.map (fun row =>
    let normalized := ofPairs (row.map (fun p => (pyReplace p.1 " " "", p.2)))
    let pair := dictGetD normalized "組み合わせ" (dictGetD normalized "組合せ" "")
    let popularity := dictGetD normalized "人気" ""
    let umaren_odds := dictGetD normalized "オッズ" ""
    let wide_odds := dictGetD normalized "ワイド・オッズ" (dictGetD normalized "ワイド" "")
    ([("人気", popularity), ("組み合わせ", pair),
       ("オッズ", normalize_odds_value umaren_odds)],
     [("人気", popularity), ("組み合わせ", pair),
       ("オッズ", normalize_odds_value wide_odds)]))
  (pairs.map (·.1), pairs.map (·.2))

/-- One heading's routing step of `_extract_odds_by_bet_type`. -/
def headingStep (result : List (String × List Dict)) (heading : Heading) :
    List (String × List Dict) :=
  let normalized_title := pyReplace heading.text "３" "3"
  match heading.nextTable with
  | none => result
  | some table =>
    let rows := parse_table table
    if rows.isEmpty then result
    else if pyContains normalized_title "単勝" ∧ pyContains normalized_title "複勝" then
      let split := split_tansho_fukusho rows
      let result := if ¬ split.1.isEmpty then upsert "単勝" split.1 result else result
      if ¬ split.2.isEmpty then upsert "複勝" split.2 result else result
    else if pyContains normalized_title "馬連" ∧ pyContains normalized_title "ワイド" then
      let split := split_umaren_wide rows
      let result := if ¬ split.1.isEmpty then upsert "馬連" split.1 result else result
      if ¬ split.2.isEmpty then upsert "ワイド" split.2 result else result
    else if pyContains normalized_title "枠連" then upsert "枠連" rows result
    else if pyContains normalized_title "馬単" then upsert "馬単" rows result
    else if pyContains normalized_title "3連複" then upsert "三連複" rows result
    else if pyContains normalized_title "3連単" then upsert "三連単" rows result
    else result

/-- `_extract_odds_by_bet_type(soup)`: route every heading's next table
into bet-type buckets (all 8 buckets initialized empty). -/
def extract_odds_by_bet_type (soup : Soup) : List (String × List Dict) :=
  soup.headings.foldl headingStep (BET_TYPES.map (fun bt => (bt, [])))

/-! ## Positional win/place fallback -/

/-- The local `parse_table` helper of
`_extract_win_place_by_table_position`: positional guesses for the
horse-number / name / odds columns. -/
def winPlacePositionalRows (table : Table) : List Dict :=
  table.rows.filterMap (fun tr =>
    let cells := tr.td.map (·.text)
    if cells.length < 3 then none
    else
      let horse_no0 := pyStrip ((cells.drop 1).headD "")
      let horse_no :=
        if ¬ pyIsdigit horse_no0 then
          (cells.find? (fun v => pyIsdigit (pyStrip v))).getD ""
        else horse_no0
      let odds := normalize_odds_value (cells.getLastD "")
      let horse_name := pyStrip ((cells.dropLast).getLastD "")
      if horse_no = "" then none
      else some [("馬番", horse_no), ("馬名", horse_name), ("オッズ", odds)])

/-- `_extract_win_place_by_table_position(soup)`: first table = win,
second = place; empty both when fewer than two tables. -/
def extract_win_place_by_table_position (soup : Soup) : List (String × List Dict) :=
  if soup.tables.length < 2 then [("単勝", []), ("複勝", [])]
  else
    [("単勝", winPlacePositionalRows (soup.tables.headD default)),
     ("複勝", winPlacePositionalRows ((soup.tables.drop 1).headD default))]

/-! ## Page locators and race identity -/

/-- `_extract_race_name(soup)`: first candidate among
`h1`, `.RaceName`, `.RaceData01`, `title` that exists with nonempty text. -/
def extract_race_name (soup : Soup) : Option String :=
  [soup.h1, soup.raceName, soup.raceData01, soup.title].findSome? (fun item =>
    match item with
    | some t => if t ≠ "" then some t else none
    | none => none)

/-- `_find_table_by_keywords(soup, keywords)`: first table whose full
text contains every keyword. -/
def find_table_by_keywords (soup : Soup) (keywords : List String) : Option Table :=
  soup.tables.find? (fun t => keywords.all (fun kw => pyContains t.fullText kw))

/-- `_find_largest_table(soup)`: the first table with the most rows. -/
def find_largest_table (soup : Soup) : Option Table :=
  match soup.tables with
  | [] => none
  | t :: ts =>
    some (ts.foldl (fun best x =>
      if x.rows.length > best.rows.length then x else best) t)

/-- `_extract_race_entries(soup)`. -/
def extract_race_entries (soup : Soup) : List Dict :=
  match find_table_by_keywords soup ["馬名"] with
  | some table => parse_table table
  | none =>
    match find_largest_table soup with
    | some table => parse_table table
    | none => []

/-! ## Jiku (axis) discovery -/

/-- `_extract_jiku_values(soup)`: stripped digit `option` values,
first-seen order, deduplicated. -/
def extract_jiku_values (soup : Soup) : List String :=
  soup.options.foldl (fun values v =>
    let value := pyStrip v
    if pyIsdigit value ∧ ¬ values.contains value then values ++ [value]
    else values) []

/-- `_extract_horse_numbers_from_entries(entries)`. -/
def extract_horse_numbers_from_entries (entries : List Dict) : List String :=
  entries.foldl (fun values row =>
    let value := extract_horse_number_from_entry_row row
    if pyIsdigit value ∧ ¬ values.contains value then values ++ [value]
    else values) []

/-! ## Effect environment

Network and clock effects made explicit.  A fetch that raises becomes
`Except.error msg` with `msg` modelling `str(exc)`. -/

/-- The external world the scraper interacts with. -/
structure Env where
  /-- `_fetch_html(url)` composed with `BeautifulSoup(html, "lxml")`
  (parsing never raises; all raising happens in the fetch). -/
  fetchHtml : String → Except String Soup
  /-- The raw `json.loads(response.text)` of the odds-API request of
  `_fetch_jra_odds_payload(race_id, api_odds_type, referer)`; errors
  cover HTTP failures and JSON decode failures. -/
  rawPayload : (raceId : String) → (apiOddsType : String) → (referer : String) →
    Except String J
  /-- `datetime.now().date()` as `(year, month, day)`. -/
  today : Nat × Nat × Nat
  /-- `urllib.parse.urljoin(base, href)` (uninterpreted standard-library
  collaborator; only stored in the URL registry). -/
  urljoin : String → String → String

/-- `_fetch_jra_odds_payload(...)`: the decoded payload when it is a JSON
dict, `None` otherwise. -/
def fetch_jra_odds_payload (env : Env) (raceId apiOddsType referer : String) :
    Except String (Option J) :=
  (env.rawPayload raceId apiOddsType referer).map (fun payload =>
    match payload with
    | .obj kvs => some (J.obj kvs)
    | _ => none)

/-- `_build_future_race_hint(race_date)`. -/
def build_future_race_hint (env : Env) (race_date : Option String) : Option String :=
  match race_date with
  | none => none
  | some rd =>
    if rd = "" then none  -- `if not race_date`
    else
      match strptimeDashed rd with
      | none => none
      | some ymd =>
        if dateGT ymd env.today then some ("race_date=" ++ rd ++ " は未来日付")
        else none

/-- `_fetch_jra_odds_reason(source_url, bet_type)`: re-query the JSON
endpoint; `None` when the typed payload is nonempty or anything fails,
else the payload's truthy `reason` (or `status`) as text. -/
def fetch_jra_odds_reason (env : Env) (source_url : Option String)
    (bet_type : String) : Option String :=
  match extract_race_id (source_url.getD "") with
  | none => none
  | some race_id =>
    if race_id = "" then none  -- `if not race_id`
    else
      match alistGet API_ODDS_TYPE_MAP bet_type with
      | none => none
      | some odds_type =>
        match fetch_jra_odds_payload env race_id odds_type (source_url.getD "") with
        | .error _ => none
        | .ok none => none  -- `if not isinstance(payload, dict)`
        | .ok (some payload) =>
          if (typedOdds payload odds_type).isSome then none
          else
            match payload.get "reason" with
            | some r =>
              if r.truthy then some r.toStr
              else
                match payload.get "status" with
                | some st => if st.truthy then some st.toStr else none
                | none => none
            | none =>
              match payload.get "status" with
              | some st => if st.truthy then some st.toStr else none
              | none => none

/-- A per-bet-type status record (`status` / `rows` / `message` /
`source_url`). -/
structure OddsStatus where
  status : String
  rows : Nat
  message : String
  source_url : Option String
deriving DecidableEq

/-- `_build_odds_status(bet_type, rows, urls, race_date)`. -/
def build_odds_status (env : Env) (bet_type : String) (rows : List Dict)
    (urls : List (String × String)) (race_date : Option String) : OddsStatus :=
  let source_url := alistGet urls bet_type
  let race_date_hint := build_future_race_hint env race_date
  if rows.isEmpty then
    let api_reason := fetch_jra_odds_reason env source_url bet_type
    let message := bet_type ++ "のオッズを取得できませんでした"
    let message := if api_reason.getD "" ≠ "" then
      message ++ " (api_reason: " ++ api_reason.getD "" ++ ")" else message
    let message := if race_date_hint.getD "" ≠ "" then
      message ++ " (" ++ race_date_hint.getD "" ++ ")" else message
    ⟨"missing", 0, message, source_url⟩
  else if rows.any (fun row => has_available_odds (dictGetD row "オッズ" "")) then
    ⟨"ok", rows.length, bet_type ++ "のオッズを取得しました", source_url⟩
  else
    let api_reason := fetch_jra_odds_reason env source_url bet_type
    let message := bet_type ++ "は発売前または未更新の可能性があります"
    let message := if api_reason.getD "" ≠ "" then
      message ++ " (api_reason: " ++ api_reason.getD "" ++ ")" else message
    let message := if race_date_hint.getD "" ≠ "" then
      message ++ " (" ++ race_date_hint.getD "" ++ ")" else message
    ⟨"unavailable", rows.length, message, source_url⟩

/-! ## Full odds collection -/

/-- One axis (`jiku`) iteration of `_collect_triple_full_odds`:
fetch the sub-page and merge its keyed cart rows. -/
def tripleJikuStep (env : Env) (abroad_url bet_type : String)
    (st : List (String × Dict) × List (String × String)) (jiku : String) :
    Except String (List (String × Dict) × List (String × String)) := do
  let jiku_url := abroad_url ++ "&jiku=" ++ jiku
  let jiku_urls := upsert (bet_type ++ "_jiku_" ++ jiku) jiku_url st.2
  let jiku_soup ← env.fetchHtml jiku_url
  let all_rows := (extract_cart_items jiku_soup bet_type true).foldl
    (fun acc row =>
      let popped := dictPop row "_cart_item" ""
      if popped.1 = "" then acc else upsert popped.1 popped.2 acc) st.1
  pure (all_rows, jiku_urls)

/-- `_collect_triple_full_odds(abroad_url, bet_type, entries)`: per-axis
sub-page fetches, merged by the raw cart key, sorted. -/
def collect_triple_full_odds (env : Env) (abroad_url bet_type : String)
    (entries : List Dict) : Except String (List Dict × List (String × String)) := do
  let soup ← env.fetchHtml abroad_url
  let jiku_values := extract_jiku_values soup
  let jiku_values := if jiku_values.isEmpty then
    extract_horse_numbers_from_entries entries else jiku_values
  let st ← jiku_values.foldlM (tripleJikuStep env abroad_url bet_type) ([], [])
  let rows := st.1.map (·.2)
  pure (sortByKey (fun row => combo_sort_key (dictGetD row "組み合わせ" "")) rows,
    st.2)

/-- The two-strategy win/place extraction of a single page:
heading-routed rows, else positional rows. -/
def winPlacePageRows (soup : Soup) (bet_type : String) : List Dict :=
  let rows := (alistGet (extract_odds_by_bet_type soup) bet_type).getD []
  if rows.isEmpty then
    (alistGet (extract_win_place_by_table_position soup) bet_type).getD []
  else rows

/-- The JSON-API attempt of `_collect_full_odds_for_bet_type`
(`if race_id:` is Python truthiness of the optional id; a fetch failure
is swallowed — `except Exception: pass`). -/
def apiAttempt (env : Env) (race_id : Option String) (bet_type : String)
    (entries : List Dict) (primary_url : String) (urls : List (String × String)) :
    Option (List Dict × List (String × String)) :=
  match race_id with
  | none => none
  | some rid =>
    if rid = "" then none
    else
      match alistGet API_ODDS_TYPE_MAP bet_type with
      | none => none
      | some api_type =>
        match fetch_jra_odds_payload env rid api_type primary_url with
        | .error _ => none
        | .ok payload =>
          let api_rows := extract_odds_rows_from_api_payload
            (payload.getD (J.obj [])) bet_type entries
          if api_rows.isEmpty then none
          else some (api_rows, upsert (bet_type ++ "_api")
            "https://race.netkeiba.com/api/api_get_jra_odds.html" urls)

/-- The win/place HTML branch of `_collect_full_odds_for_bet_type`:
primary page via both strategies, then the secondary page. -/
def collectWinPlaceHtml (env : Env) (bet_type primary_url : String)
    (abroad_url : Option String) (urls : List (String × String)) :
    Except String (List Dict × List (String × String)) := do
  let soup ← env.fetchHtml primary_url
  let rows := winPlacePageRows soup bet_type
  if ¬ rows.isEmpty then
    pure (rows, urls)
  else
    match abroad_url with
    | some ab =>
      if ab ≠ primary_url then do
        let fallback_soup ← env.fetchHtml ab
        let fallback_rows := winPlacePageRows fallback_soup bet_type
        if ¬ fallback_rows.isEmpty then
          pure (fallback_rows, upsert (bet_type ++ "_fallback") ab urls)
        else pure (rows, urls)
      else pure (rows, urls)
    | none => pure (rows, urls)

/-- The trio/trifecta branch of `_collect_full_odds_for_bet_type`:
per-axis collection on the primary page, then the secondary page. -/
def collectTripleBranch (env : Env) (bet_type primary_url : String)
    (abroad_url : Option String) (entries : List Dict)
    (urls : List (String × String)) :
    Except String (List Dict × List (String × String)) := do
  let result ← collect_triple_full_odds env primary_url bet_type entries
  let urls := result.2.foldl (fun acc p => upsert p.1 p.2 acc) urls
  if ¬ result.1.isEmpty then
    pure (result.1, urls)
  else
    match abroad_url with
    | some ab =>
      if ab ≠ primary_url then do
        let fallback ← collect_triple_full_odds env ab bet_type entries
        let urls := fallback.2.foldl
          (fun acc p => upsert ("fallback_" ++ p.1) p.2 acc) urls
        if ¬ fallback.1.isEmpty then
          pure (fallback.1, upsert (bet_type ++ "_fallback") ab urls)
        else pure (result.1, urls)
      else pure (result.1, urls)
    | none => pure (result.1, urls)

/-- The other-combination branch of `_collect_full_odds_for_bet_type`:
cart cells of the primary page, then of the secondary page. -/
def collectCartBranch (env : Env) (bet_type primary_url : String)
    (abroad_url : Option String) (urls : List (String × String)) :
    Except String (List Dict × List (String × String)) := do
  let soup ← env.fetchHtml primary_url
  let rows := extract_cart_items soup bet_type
  if ¬ rows.isEmpty then
    pure (rows, urls)
  else
    match abroad_url with
    | some ab =>
      if ab ≠ primary_url then do
        let fallback_soup ← env.fetchHtml ab
        let fallback_rows := extract_cart_items fallback_soup bet_type
        if ¬ fallback_rows.isEmpty then
          pure (fallback_rows, upsert (bet_type ++ "_fallback") ab urls)
        else pure (rows, urls)
      else pure (rows, urls)
    | none => pure (rows, urls)

/-- `_collect_full_odds_for_bet_type(race_id, bet_type, entries)`:
JSON-API attempt, then primary-page HTML, then secondary ("abroad") page;
returns the rows and the URL registry, or the first uncaught fetch
failure. -/
def collect_full_odds_for_bet_type (env : Env) (race_id : Option String)
    (bet_type : String) (entries : List Dict) :
    Except String (List Dict × List (String × String)) :=
  let type_url := build_odds_type_url race_id bet_type
  let abroad_url := build_abroad_type_url race_id bet_type
  if type_url.isNone ∧ abroad_url.isNone then
    pure ([], [])
  else
    let primary_url := (type_url.orElse (fun _ => abroad_url)).getD ""
    let urls : List (String × String) := [(bet_type, primary_url)]
    match apiAttempt env race_id bet_type entries primary_url urls with
    | some result => pure result
    | none =>
      if bet_type = "単勝" ∨ bet_type = "複勝" then
        collectWinPlaceHtml env bet_type primary_url abroad_url urls
      else if bet_type = "三連複" ∨ bet_type = "三連単" then
        collectTripleBranch env bet_type primary_url abroad_url entries urls
      else
        collectCartBranch env bet_type primary_url abroad_url urls

/-! ## Race orchestrator -/

/-- `_discover_odds_links(soup, base_url)`: same-page anchors whose text
or href mentions a bet type. -/
def discover_odds_links (env : Env) (soup : Soup) (base_url : String) :
    List (String × String) :=
  soup.anchors.foldl (fun links anchor =>
    if anchor.1 = "" ∧ anchor.2 = "" then links
    else
      BET_TYPES.foldl (fun links bet_type =>
        if pyContains anchor.1 bet_type ∨ pyContains anchor.2 bet_type then
          upsert bet_type (env.urljoin base_url anchor.2) links
        else links) links) []

/-- The final result record of `scrape`. -/
structure ScrapeResult where
  race_url : String
  race_id : Option String
  race_name : Option String
  race_date : Option String
  entries : List Dict
  odds : List (String × List Dict)
  odds_status : List (String × OddsStatus)
  odds_links : List (String × String)

/-- The synthetic error row of `scrape`'s per-bet-type `except` branch. -/
def scrapeErrorRow (msg : String) (failed_url : Option String) : Dict :=
  [("error", msg), ("source_url", failed_url.getD "")]

/-- `_build_odds_type_url(...) or _build_abroad_type_url(...)` of the
`except` branch (Python `or`: the first truthy URL). -/
def scrapeFailedUrl (race_id : Option String) (bet_type : String) : Option String :=
  match build_odds_type_url race_id bet_type with
  | some u => if u ≠ "" then some u else build_abroad_type_url race_id bet_type
  | none => build_abroad_type_url race_id bet_type

/-- The odds rows `scrape` stores for one bet type: the collected rows,
or the synthetic error row when collection raised. -/
def scrapeOddsFor (env : Env) (race_id : Option String) (entries : List Dict)
    (bet_type : String) : List Dict :=
  match collect_full_odds_for_bet_type env race_id bet_type entries with
  | .ok (rows, _) => rows
  | .error msg => [scrapeErrorRow msg (scrapeFailedUrl race_id bet_type)]

/-- The status record `scrape` stores for one bet type. -/
def scrapeStatusFor (env : Env) (race_id : Option String)
    (race_date : Option String) (entries : List Dict) (bet_type : String) :
    OddsStatus :=
  match collect_full_odds_for_bet_type env race_id bet_type entries with
  | .ok (rows, urls) => build_odds_status env bet_type rows urls race_date
  | .error msg => ⟨"error", 0, msg, scrapeFailedUrl race_id bet_type⟩

/-- One bet-type iteration of `scrape`'s loop, transforming the
`(odds, odds_status, all_urls)` accumulators.  (The model's collection is
a pure function, so evaluating it per component is the single call of the
source loop.) -/
def scrapeStep (env : Env) (race_id : Option String) (race_date : Option String)
    (entries : List Dict)
    (acc : List (String × List Dict) × List (String × OddsStatus) ×
      List (String × String)) (bet_type : String) :
    List (String × List Dict) × List (String × OddsStatus) ×
      List (String × String) :=
  (upsert bet_type (scrapeOddsFor env race_id entries bet_type) acc.1,
   upsert bet_type (scrapeStatusFor env race_id race_date entries bet_type) acc.2.1,
   match collect_full_odds_for_bet_type env race_id bet_type entries with
   | .ok (_, urls) => urls.foldl (fun all_urls p => setdefault all_urls p.1 p.2) acc.2.2
   | .error _ => acc.2.2)

/-- `NetkeibaScraper.scrape(race_url)`: fetch the race page, extract race
identity and entries, then collect odds and status for all 8 bet types
with per-bet-type failure isolation.  The initial race-page fetch is NOT
inside the per-bet-type `try`, so its failure propagates. -/
def scrape (env : Env) (race_url : String) : Except String ScrapeResult := do
  let soup ← env.fetchHtml race_url
  let race_id := extract_race_id race_url
  let race_date := extract_race_date race_id
  let race_name := extract_race_name soup
  let entries := extract_race_entries soup
  let odds_links := discover_odds_links env soup race_url
  let init : List (String × List Dict) × List (String × OddsStatus) ×
      List (String × String) :=
    (BET_TYPES.map (fun bt => (bt, [])), [], odds_links)
  let fin := BET_TYPES.foldl (scrapeStep env race_id race_date entries) init
  pure ⟨race_url, race_id, race_name, race_date, entries, fin.1, fin.2.1, fin.2.2⟩

/-!
# Verification

General-purpose lemmas about the embedding's primitives, then one section
per claim.
-/

section Lemmas

/-- `String.mk` and `String.toList` are inverse on the data. -/
theorem toList_mk (cs : List Char) : (String.mk cs).toList = cs := rfl

/-- Stripping is idempotent (so the scraper's repeated `str.strip()`
calls collapse). -/
theorem pyStrip_idem (s : String) : pyStrip (pyStrip s) = pyStrip s := by
  unfold pyStrip
  rw [toList_mk]
  have h1 : List.dropWhile isPySpace
      (List.rdropWhile isPySpace (s.toList.dropWhile isPySpace)) =
      List.rdropWhile isPySpace (s.toList.dropWhile isPySpace) := by
    rcases h : List.rdropWhile isPySpace (s.toList.dropWhile isPySpace) with _ | ⟨x, xs⟩
    · simp
    · have hpre := List.rdropWhile_prefix isPySpace (s.toList.dropWhile isPySpace)
      rw [h] at hpre
      obtain ⟨t, ht⟩ := hpre
      have hh : (s.toList.dropWhile isPySpace).head? = some x := by
        rw [← ht]; rfl
      have hx : isPySpace x = false := by
        have h0 := List.head?_dropWhile_not isPySpace s.toList
        rw [hh] at h0
        exact h0
      rw [List.dropWhile_cons, hx]
      simp
  rw [h1, List.rdropWhile_idempotent]

/-- Membership in a stripped string implies membership in the original. -/
theorem mem_of_mem_pyStrip {c : Char} {s : String} :
    c ∈ (pyStrip s).toList → c ∈ s.toList := by
  unfold pyStrip
  rw [toList_mk]
  intro h
  have h1 : c ∈ s.toList.dropWhile isPySpace := by
    have := (List.rdropWhile_prefix isPySpace (s.toList.dropWhile isPySpace)).sublist
    exact this.mem h
  exact (List.dropWhile_sublist _).mem h1

/-- No comma survives `removeCommas`. -/
theorem comma_notMem_removeCommas (s : String) : ',' ∉ (removeCommas s).toList := by
  unfold removeCommas
  rw [toList_mk]
  intro h
  have := List.of_mem_filter h
  simp at this

/-- No comma survives `_normalize_odds_value`. -/
theorem comma_notMem_normalize (v : String) :
    ',' ∉ (normalize_odds_value v).toList := by
  unfold normalize_odds_value
  intro h
  exact comma_notMem_removeCommas v (mem_of_mem_pyStrip h)

/-- `upsert` lookup at the written key. -/
theorem alistGet_upsert_self {α : Type} (k : String) (v : α) (d : List (String × α)) :
    alistGet (upsert k v d) k = some v := by
  induction d with
  | nil => simp [upsert, alistGet]
  | cons p rest ih =>
    obtain ⟨k', v'⟩ := p
    by_cases h : k' = k
    · subst h; simp [upsert, alistGet]
    · simp [upsert, alistGet, h, ih]

/-- `upsert` lookup at another key. -/
theorem alistGet_upsert_ne {α : Type} {k k' : String} (v : α) (d : List (String × α))
    (h : k' ≠ k) : alistGet (upsert k v d) k' = alistGet d k' := by
  induction d with
  | nil => simp [upsert, alistGet, Ne.symm h]
  | cons p rest ih =>
    obtain ⟨k1, v1⟩ := p
    by_cases h1 : k1 = k
    · subst h1
      simp [upsert, alistGet, Ne.symm h]
    · simp [upsert, alistGet, h1, ih]

/-- Every entry of an `upsert` is the inserted pair or an old entry
(the updated slot swaps value, keeping the key). -/
theorem mem_upsert_cases {α : Type} {q : String × α} {k : String} {v : α}
    {d : List (String × α)} (h : q ∈ upsert k v d) :
    q = (k, v) ∨ q ∈ d := by
  induction d with
  | nil =>
    simp only [upsert, List.mem_singleton] at h
    exact Or.inl h
  | cons p rest ih =>
    obtain ⟨k1, v1⟩ := p
    by_cases h1 : k1 = k
    · subst h1
      have e : upsert k1 v ((k1, v1) :: rest) = (k1, v) :: rest := by
        simp [upsert]
      rw [e] at h
      rcases List.mem_cons.mp h with h2 | h2
      · exact Or.inl h2
      · exact Or.inr (List.mem_cons_of_mem _ h2)
    · have e : upsert k v ((k1, v1) :: rest) = (k1, v1) :: upsert k v rest := by
        simp [upsert, h1]
      rw [e] at h
      rcases List.mem_cons.mp h with h2 | h2
      · exact Or.inr (by rw [h2]; exact List.mem_cons_self _ _)
      · rcases ih h2 with h' | h'
        · exact Or.inl h'
        · exact Or.inr (List.mem_cons_of_mem _ h')

/-- Entries after folding `upsert` over pairs come from the accumulator
(possibly with swapped values) or are among the folded values. -/
theorem mem_foldl_upsert_cases {α : Type} {q : String × α}
    (ps : List (String × α)) (acc : List (String × α))
    (h : q ∈ ps.foldl (fun a p => upsert p.1 p.2 a) acc) :
    q ∈ acc ∨ q.2 ∈ ps.map Prod.snd := by
  induction ps generalizing acc with
  | nil => exact Or.inl h
  | cons p rest ih =>
    rcases ih _ h with h' | h'
    · rcases mem_upsert_cases h' with h'' | h''
      · right
        simp only [List.map_cons, List.mem_cons]
        exact Or.inl (by rw [h''])
      · exact Or.inl h''
    · right
      simp only [List.map_cons, List.mem_cons]
      exact Or.inr h'

/-- Membership is preserved by `sortInsert`. -/
theorem mem_sortInsert {α : Type} {x y : α} (le : α → α → Bool) (l : List α) :
    x ∈ sortInsert le y l ↔ x = y ∨ x ∈ l := by
  induction l with
  | nil => simp [sortInsert]
  | cons z zs ih =>
    unfold sortInsert
    by_cases h : le z y = true
    · simp only [if_pos h, List.mem_cons, ih]
      tauto
    · simp only [if_neg h, List.mem_cons]

/-- Membership is preserved by the stable sort. -/
theorem mem_sortByKey {α : Type} {x : α} (key : α → List Nat) (rows : List α) :
    x ∈ sortByKey key rows ↔ x ∈ rows := by
  unfold sortByKey
  suffices h : ∀ (l : List α) (acc : List α),
      x ∈ l.foldl (fun a y => sortInsert (fun a b => tupleLe (key a) (key b)) y a) acc ↔
        x ∈ acc ∨ x ∈ l by
    rw [h rows []]; simp
  intro l
  induction l with
  | nil => simp
  | cons z zs ih =>
    intro acc
    rw [List.foldl_cons, ih, mem_sortInsert]
    simp only [List.mem_cons]
    tauto

end Lemmas

section C5Availability

/-- On a stripped, non-placeholder text, `_parse_numeric_odds` succeeds
exactly on dash-free comma-stripped Python floats. -/
theorem parse_numeric_odds_isSome_eq (t : String) (ht : pyStrip t = t)
    (h : ¬(t = "" ∨ t = "-" ∨ t = "--" ∨ t = "---.-")) :
    (parse_numeric_odds t).isSome =
      (!(removeCommas t).toList.contains '-' && pyFloatAccepts (removeCommas t)) := by
  simp only [parse_numeric_odds, ht, if_neg h]
  by_cases hc : (removeCommas t).toList.contains '-' = true
  · rw [if_pos hc, hc]
    simp
  · rw [if_neg hc]
    rw [Bool.not_eq_true] at hc
    rw [hc]
    by_cases hf : pyFloatAccepts (removeCommas t) = true
    · rw [if_pos hf, hf]
      simp
    · rw [if_neg hf]
      rw [Bool.not_eq_true] at hf
      rw [hf]
      simp

/-- `_has_available_odds` over every string: true exactly for strings
whose stripped, comma-stripped text is dash-free and accepted by Python
`float()`, or whose stripped text matches the two-number range regex. -/
theorem has_available_odds_eq (s : String) :
    has_available_odds s =
      ((!(removeCommas (pyStrip s)).toList.contains '-' &&
        pyFloatAccepts (removeCommas (pyStrip s))) || rangeRegexMatch (pyStrip s)) := by
  simp only [has_available_odds]
  by_cases h : pyStrip s = "" ∨ pyStrip s = "-" ∨ pyStrip s = "--" ∨ pyStrip s = "---.-"
  · rw [if_pos h]
    rcases h with h | h | h | h <;> rw [h] <;> decide
  · rw [if_neg h, parse_numeric_odds_isSome_eq (pyStrip s) (pyStrip_idem s) h]
    by_cases hb : (!(removeCommas (pyStrip s)).toList.contains '-' &&
        pyFloatAccepts (removeCommas (pyStrip s))) = true
    · rw [if_pos hb, hb]
      simp
    · rw [if_neg hb]
      rw [Bool.not_eq_true] at hb
      rw [hb]
      simp

/-- C5 (counterexample): the odds text `"1,5"` is classified as
available, yet it is neither a plain Python float (`float("1,5")`
raises) nor a regex-validated `"A - B"` range — refuting "availability
holds exactly for plain floats and regex-validated ranges". -/
theorem C5_counterexample :
    has_available_odds "1,5" = true ∧ pyFloatAccepts "1,5" = false ∧
      rangeRegexMatch "1,5" = false := by
  decide

/-- C5 (amended): `"1.5"` and `"1.5 - 2.3"` are available; `"-"`,
`"--"`, `"---.-"` and `""` are not; and availability holds exactly for
strings whose stripped, comma-stripped text is dash-free and
`float()`-parsable, or whose stripped text matches the regex-validated
`"A - B"` range of two non-negative decimal numbers. -/
theorem C5_available_odds :
    (has_available_odds "1.5" = true ∧ has_available_odds "1.5 - 2.3" = true ∧
     has_available_odds "-" = false ∧ has_available_odds "--" = false ∧
     has_available_odds "---.-" = false ∧ has_available_odds "" = false) ∧
    ∀ s : String,
      has_available_odds s =
        ((!(removeCommas (pyStrip s)).toList.contains '-' &&
          pyFloatAccepts (removeCommas (pyStrip s))) || rangeRegexMatch (pyStrip s)) :=
  ⟨by decide, has_available_odds_eq⟩

end C5Availability

section C7RaceDate

/-- A character list of length 2 is a pair. -/
theorem exists_pair_of_length_two {cs : List Char} (h : cs.length = 2) :
    ∃ a b, cs = [a, b] := by
  rcases cs with _ | ⟨a, cs⟩
  · simp at h
  rcases cs with _ | ⟨b, cs⟩
  · simp at h
  rcases cs with _ | ⟨c, cs⟩
  · exact ⟨a, b, rfl⟩
  · simp at h

/-- A character list of length 4 is a quadruple. -/
theorem exists_quad_of_length_four {cs : List Char} (h : cs.length = 4) :
    ∃ a b c d, cs = [a, b, c, d] := by
  rcases cs with _ | ⟨a, cs⟩
  · simp at h
  rcases cs with _ | ⟨b, cs⟩
  · simp at h
  rcases cs with _ | ⟨c, cs⟩
  · simp at h
  rcases cs with _ | ⟨d, cs⟩
  · simp at h
  rcases cs with _ | ⟨e, cs⟩
  · exact ⟨a, b, c, d, rfl⟩
  · simp at h

/-- Digit characters have code points between 48 and 57. -/
theorem toNat_bounds_of_isDigit {c : Char} (h : c.isDigit = true) :
    48 ≤ c.toNat ∧ c.toNat ≤ 57 := by
  simp only [Char.isDigit, decide_eq_true_eq, Bool.and_eq_true] at h
  obtain ⟨h1, h2⟩ := h
  constructor
  · exact h1
  · exact h2

/-- `digitChar` inverts `toNat - 48` on digit characters. -/
theorem digitChar_inv {c : Char} (h : c.isDigit = true) :
    digitChar (c.toNat - 48) = c := by
  obtain ⟨h1, _⟩ := toNat_bounds_of_isDigit h
  unfold digitChar
  rw [show 48 + (c.toNat - 48) = c.toNat by omega]
  exact Char.ofNat_toNat c

/-- `pyInt` of a 4-character string, expanded. -/
theorem pyInt_four (a b c d : Char) :
    pyInt (String.mk [a, b, c, d]) =
      (a.toNat - 48) * 1000 + (b.toNat - 48) * 100 + (c.toNat - 48) * 10 +
        (d.toNat - 48) := by
  show ((((0 * 10 + (a.toNat - 48)) * 10 + (b.toNat - 48)) * 10 + (c.toNat - 48)) * 10 +
    (d.toNat - 48)) = _
  ring

/-- `pyInt` of a 2-character string, expanded. -/
theorem pyInt_two (a b : Char) :
    pyInt (String.mk [a, b]) = (a.toNat - 48) * 10 + (b.toNat - 48) := by
  show (0 * 10 + (a.toNat - 48)) * 10 + (b.toNat - 48) = _
  ring

/-- Re-printing the value of a 4-digit string with `strftime("%Y")`
reproduces the original digits. -/
theorem pad4_roundtrip {cs : List Char} (h4 : cs.length = 4)
    (hd : ∀ c ∈ cs, c.isDigit = true) :
    pad4 (pyInt (String.mk cs)) = String.mk cs := by
  obtain ⟨a, b, c, d, rfl⟩ := exists_quad_of_length_four h4
  have ha := toNat_bounds_of_isDigit (hd a (by simp))
  have hb := toNat_bounds_of_isDigit (hd b (by simp))
  have hc := toNat_bounds_of_isDigit (hd c (by simp))
  have hdd := toNat_bounds_of_isDigit (hd d (by simp))
  rw [pyInt_four]
  unfold pad4
  have e1 : ((a.toNat - 48) * 1000 + (b.toNat - 48) * 100 + (c.toNat - 48) * 10 +
      (d.toNat - 48)) / 1000 % 10 = a.toNat - 48 := by omega
  have e2 : ((a.toNat - 48) * 1000 + (b.toNat - 48) * 100 + (c.toNat - 48) * 10 +
      (d.toNat - 48)) / 100 % 10 = b.toNat - 48 := by omega
  have e3 : ((a.toNat - 48) * 1000 + (b.toNat - 48) * 100 + (c.toNat - 48) * 10 +
      (d.toNat - 48)) / 10 % 10 = c.toNat - 48 := by omega
  have e4 : ((a.toNat - 48) * 1000 + (b.toNat - 48) * 100 + (c.toNat - 48) * 10 +
      (d.toNat - 48)) % 10 = d.toNat - 48 := by omega
  rw [e1, e2, e3, e4, digitChar_inv (hd a (by simp)), digitChar_inv (hd b (by simp)),
    digitChar_inv (hd c (by simp)), digitChar_inv (hd d (by simp))]

/-- Re-printing the value of a 2-digit string with `strftime("%m")` /
`strftime("%d")` reproduces the original digits. -/
theorem pad2_roundtrip {cs : List Char} (h2 : cs.length = 2)
    (hd : ∀ c ∈ cs, c.isDigit = true) :
    pad2 (pyInt (String.mk cs)) = String.mk cs := by
  obtain ⟨a, b, rfl⟩ := exists_pair_of_length_two h2
  have ha := toNat_bounds_of_isDigit (hd a (by simp))
  have hb := toNat_bounds_of_isDigit (hd b (by simp))
  rw [pyInt_two]
  unfold pad2
  have e1 : ((a.toNat - 48) * 10 + (b.toNat - 48)) / 10 % 10 = a.toNat - 48 := by omega
  have e2 : ((a.toNat - 48) * 10 + (b.toNat - 48)) % 10 = b.toNat - 48 := by omega
  rw [e1, e2, digitChar_inv (hd a (by simp)), digitChar_inv (hd b (by simp))]

/-- Inversion for the `%Y%m%d` parse: the fields are the numeric values
of the 4/2/2 digit segments. -/
theorem strptimeYMD_inv {cs : List Char} {y m d : Nat}
    (h : strptimeYMD cs = some (y, m, d)) :
    y = pyInt (String.mk (cs.take 4)) ∧
      m = pyInt (String.mk ((cs.drop 4).take 2)) ∧
      d = pyInt (String.mk (cs.drop 6)) := by
  simp only [strptimeYMD] at h
  split at h
  · injection h with he
    exact ⟨(congrArg (fun p => p.1) he).symm, (congrArg (fun p => p.2.1) he).symm,
      (congrArg (fun p => p.2.2) he).symm⟩
  · exact absurd h (by simp)

/-- C7: an absent identifier yields no race date; an identifier with
fewer than 8 digits yields no race date; when the first 8 digits parse
as a valid `%Y%m%d` date the derived race date is exactly those 8
digits with dashes inserted (`YYYY-MM-DD`); and when they do not parse,
no race date is produced. -/
theorem C7_extract_race_date :
    extract_race_date none = none ∧
    ∀ s : String,
      ((s.toList.filter Char.isDigit).length < 8 →
        extract_race_date (some s) = none) ∧
      (∀ y m d, 8 ≤ (s.toList.filter Char.isDigit).length →
        strptimeYMD ((s.toList.filter Char.isDigit).take 8) = some (y, m, d) →
        extract_race_date (some s) =
          some (String.mk (((s.toList.filter Char.isDigit).take 8).take 4) ++ "-" ++
            String.mk ((((s.toList.filter Char.isDigit).take 8).drop 4).take 2) ++ "-" ++
            String.mk (((s.toList.filter Char.isDigit).take 8).drop 6))) ∧
      (8 ≤ (s.toList.filter Char.isDigit).length →
        strptimeYMD ((s.toList.filter Char.isDigit).take 8) = none →
        extract_race_date (some s) = none) := by
  refine ⟨rfl, fun s => ⟨?_, ?_, ?_⟩⟩
  · intro hlen
    simp only [extract_race_date]
    by_cases hs : s = ""
    · rw [if_pos hs]
    · rw [if_neg hs, if_pos hlen]
  · intro y m d hlen hparse
    have hs : s ≠ "" := by
      intro hc
      subst hc
      simp at hlen
    have hnl : ¬ (s.toList.filter Char.isDigit).length < 8 := by omega
    have hlen' : 8 ≤ (s.data.filter Char.isDigit).length := hlen
    simp only [extract_race_date, if_neg hs, if_neg hnl, hparse]
    have hall : ∀ c ∈ (s.toList.filter Char.isDigit).take 8, c.isDigit = true := by
      intro c hcmem
      exact List.of_mem_filter (List.mem_of_mem_take hcmem)
    obtain ⟨hy, hm, hd⟩ := strptimeYMD_inv hparse
    subst hy hm hd
    congr 1
    rw [pad4_roundtrip (by simp [List.length_take]; omega)
        (fun c hcmem => hall c (List.mem_of_mem_take hcmem)),
      pad2_roundtrip (by simp [List.length_take, List.length_drop]; omega)
        (fun c hcmem => hall c (List.mem_of_mem_drop (List.mem_of_mem_take hcmem))),
      pad2_roundtrip (by simp [List.length_drop, List.length_take]; omega)
        (fun c hcmem => hall c (List.mem_of_mem_drop hcmem))]
  · intro hlen hparse
    have hs : s ≠ "" := by
      intro hc
      subst hc
      simp at hlen
    have hnl : ¬ (s.toList.filter Char.isDigit).length < 8 := by omega
    simp only [extract_race_date, if_neg hs, if_neg hnl, hparse]

/-- C7 (witness): the identifier `"202401010101"` has at least 8 digits,
they parse as the date 2024-01-01, and the derived race date is
`"2024-01-01"`; absent identifiers yield none. -/
theorem C7_witness :
    extract_race_date (some "202401010101") = some "2024-01-01" ∧
      extract_race_date none = none := by
  constructor
  · have h := ((C7_extract_race_date.2 "202401010101").2.1) 2024 1 1
      (by decide) (by decide)
    exact h.trans (by decide)
  · exact C7_extract_race_date.1

end C7RaceDate

section C8ApiScenarios

/-- C8: the win-type JSON payload
`data.odds.1 = (3 maps to ["4.5"])` with an entries row for horse 3
named "Horse A" yields exactly the row
`馬番 "3" / 馬名 "Horse A" / オッズ "4.5"`; and a place-type value list
`["2.1", "3.4"]` (second element nonempty and non-zero) yields the odds
text `"2.1 - 3.4"`. -/
theorem C8_api_payload_scenarios :
    extract_odds_rows_from_api_payload
      (J.obj [("data", J.obj [("odds", J.obj [("1",
        J.obj [("3", J.arr [J.s "4.5"])])])])])
      "単勝" [[("馬番", "3"), ("馬名", "Horse A")]] =
      [[("馬番", "3"), ("馬名", "Horse A"), ("オッズ", "4.5")]] ∧
    extract_odds_rows_from_api_payload
      (J.obj [("data", J.obj [("odds", J.obj [("2",
        J.obj [("5", J.arr [J.s "2.1", J.s "3.4"])])])])])
      "複勝" [] =
      [[("馬番", "5"), ("馬名", ""), ("オッズ", "2.1 - 3.4")]] := by
  decide

end C8ApiScenarios

section C10PositionalFallback

/-- C10: on a page with fewer than two tables the positional win/place
fallback returns empty row lists for both win and place — whatever the
single table (if any) contains. -/
theorem C10_win_place_needs_two_tables (soup : Soup)
    (h : soup.tables.length < 2) :
    extract_win_place_by_table_position soup = [("単勝", []), ("複勝", [])] := by
  unfold extract_win_place_by_table_position
  rw [if_pos h]

/-- A page with a single table that itself holds perfectly valid win
odds rows. -/
def soupOneWinTable : Soup :=
  { tables := [{ rows := [
      { td := [{ text := "1" }, { text := "3" }, { text := "Horse A" },
               { text := "2.5" }] },
      { td := [{ text := "2" }, { text := "7" }, { text := "Horse B" },
               { text := "3.1" }] }] }] }

/-- C10 (witness): that single table parses to nonempty positional win
rows, yet the positional fallback returns empty win and place lists. -/
theorem C10_witness :
    winPlacePositionalRows (soupOneWinTable.tables.headD default) ≠ [] ∧
    extract_win_place_by_table_position soupOneWinTable =
      [("単勝", []), ("複勝", [])] :=
  ⟨by decide, C10_win_place_needs_two_tables soupOneWinTable (by decide)⟩

end C10PositionalFallback

section C9TableParser

/-- The record `_parse_table` builds from one data row, given the
resolved headers. -/
def parseTableRecord (headers : List String) (r : Tr) : Dict :=
  if headers ≠ [] ∧ headers.length = (r.td.map (·.text)).length then
    ofPairs (headers.zip (r.td.map (·.text)))
  else
    (r.td.map (·.text)).enum.map (fun p => ("col_" ++ toString (p.1 + 1), p.2))

/-- The data loop of `_parse_table`, in closed form. -/
theorem parseTable_filterMap (headers : List String) (rows : List Tr) :
    rows.filterMap (fun r =>
      if r.td.isEmpty then none
      else
        let values := r.td.map (·.text)
        if headers ≠ [] ∧ headers.length = values.length then
          some (ofPairs (headers.zip values))
        else
          some (values.enum.map (fun p => ("col_" ++ toString (p.1 + 1), p.2)))) =
    (rows.filter (fun r => !r.td.isEmpty)).map (parseTableRecord headers) := by
  induction rows with
  | nil => rfl
  | cons r rs ih =>
    simp only [List.filterMap_cons, List.filter_cons]
    by_cases he : r.td.isEmpty
    · rw [if_pos he]
      simp only [he, Bool.not_true, Bool.false_eq_true, if_false]
      exact ih
    · rw [if_neg he]
      simp only [he, Bool.not_false, if_true, List.map_cons]
      rw [ih]
      by_cases hc : headers ≠ [] ∧ headers.length = (r.td.map (·.text)).length
      · rw [if_pos hc]
        unfold parseTableRecord
        rw [if_pos hc]
      · rw [if_neg hc]
        unfold parseTableRecord
        rw [if_neg hc]

/-- `parse_table` in closed form: one record per data row with at least
one `td` cell. -/
theorem parse_table_eq (t : Table) (r0 : Tr) (rest : List Tr)
    (h : t.rows = r0 :: rest) :
    parse_table t = (rest.filter (fun r => !r.td.isEmpty)).map
      (parseTableRecord (tableHeaders r0 t)) := by
  unfold parse_table
  rw [h]
  exact parseTable_filterMap (tableHeaders r0 t) rest

/-- C9: every data row with at least one `td` cell yields a record
(named fields when the header count equals the cell count, positional
`col_N` keys otherwise) and a row is dropped exactly when it has zero
`td` cells — never for empty cell texts. -/
theorem C9_parse_table (t : Table) (r0 : Tr) (rest : List Tr)
    (h : t.rows = r0 :: rest) :
    (parse_table t).length = (rest.filter (fun r => !r.td.isEmpty)).length ∧
    ∀ r ∈ rest, ¬ r.td.isEmpty = true →
      parseTableRecord (tableHeaders r0 t) r ∈ parse_table t := by
  rw [parse_table_eq t r0 rest h]
  constructor
  · rw [List.length_map]
  · intro r hr hne
    exact List.mem_map_of_mem _ (List.mem_filter.mpr ⟨hr, by simp [hne]⟩)

/-- A table whose second data row has empty cell texts and whose third
has zero cells. -/
def tableC9 : Table :=
  { rows := [
      { th := ["馬番", "オッズ"] },
      { td := [{ text := "1" }, { text := "2.5" }] },
      { td := [{ text := "" }, { text := "" }] },
      { td := [] },
      { td := [{ text := "x" }] }] }

/-- C9 (witness): the empty-valued row is kept (named fields), the
zero-cell row is dropped, the count-mismatch row gets positional keys. -/
theorem C9_witness :
    (parse_table tableC9).length = 3 ∧
    [("馬番", ""), ("オッズ", "")] ∈ parse_table tableC9 ∧
    [("col_1", "x")] ∈ parse_table tableC9 := by
  have h := C9_parse_table tableC9 { th := ["馬番", "オッズ"] }
    [{ td := [{ text := "1" }, { text := "2.5" }] },
     { td := [{ text := "" }, { text := "" }] },
     { td := [] },
     { td := [{ text := "x" }] }] rfl
  refine ⟨h.1.trans (by decide), ?_, ?_⟩
  · have h2 := h.2 { td := [{ text := "" }, { text := "" }] } (by decide) (by decide)
    exact (by decide : parseTableRecord (tableHeaders { th := ["馬番", "オッズ"] } tableC9)
      { td := [{ text := "" }, { text := "" }] } = [("馬番", ""), ("オッズ", "")]) ▸ h2
  · have h2 := h.2 { td := [{ text := "x" }] } (by decide) (by decide)
    exact (by decide : parseTableRecord (tableHeaders { th := ["馬番", "オッズ"] } tableC9)
      { td := [{ text := "x" }] } = [("col_1", "x")]) ▸ h2

end C9TableParser

section RowProvenance

/-- `digitChar` of a value below 10 is a digit character. -/
theorem digitChar_isDigit {k : Nat} (h : k < 10) : (digitChar k).isDigit = true := by
  interval_cases k <;> decide

/-- Every character printed by the fueled digit printer is a digit, and
the output is nonempty, provided the fuel covers the value. -/
theorem natDigitsAux_digits : ∀ (fuel n : Nat), n ≤ fuel →
    natDigitsAux fuel n ≠ [] ∧ ∀ c ∈ natDigitsAux fuel n, c.isDigit = true := by
  intro fuel
  induction fuel with
  | zero =>
    intro n hn
    have : n = 0 := by omega
    subst this
    exact ⟨by simp [natDigitsAux], by
      intro c hc
      simp only [natDigitsAux, List.mem_singleton] at hc
      subst hc
      exact digitChar_isDigit (by omega)⟩
  | succ fuel ih =>
    intro n hn
    unfold natDigitsAux
    by_cases h10 : n < 10
    · rw [if_pos h10]
      exact ⟨by simp, by
        intro c hc
        simp only [List.mem_singleton] at hc
        subst hc
        exact digitChar_isDigit h10⟩
    · rw [if_neg h10]
      have hdiv : n / 10 ≤ fuel := by omega
      obtain ⟨hne, hall⟩ := ih (n / 10) hdiv
      constructor
      · simp
      · intro c hc
        rcases List.mem_append.mp hc with hc | hc
        · exact hall c hc
        · simp only [List.mem_singleton] at hc
          subst hc
          exact digitChar_isDigit (by omega)

/-- `str(int(s))` is a nonempty digit string. -/
theorem stripZeros_isdigit (s : String) : pyIsdigit (stripZeros s) = true := by
  obtain ⟨hne, hall⟩ := natDigitsAux_digits (pyInt s) (pyInt s) (le_refl _)
  unfold stripZeros pyIsdigit natDigits
  rw [Bool.and_eq_true]
  constructor
  · simp only [ne_eq, decide_eq_true_eq]
    intro hc
    exact hne (congrArg String.toList hc)
  · rw [toList_mk, List.all_eq_true]
    exact hall

/-- Tokens produced by the cart-item scan are nonempty digit strings. -/
theorem findNums_digits (cs : List Char) : ∀ s ∈ findNums cs, pyIsdigit s = true := by
  have hflush : ∀ (acc : List String) (ds : List Char),
      (∀ s ∈ acc, pyIsdigit s = true) → (∀ c ∈ ds, c.isDigit = true) →
      ∀ s ∈ (if ds ≠ [] then acc ++ [String.mk ds] else acc), pyIsdigit s = true := by
    intro acc ds hacc hds s hs
    by_cases hne : ds ≠ []
    · rw [if_pos hne] at hs
      rcases List.mem_append.mp hs with h | h
      · exact hacc s h
      · simp only [List.mem_singleton] at h
        subst h
        unfold pyIsdigit
        rw [Bool.and_eq_true]
        refine ⟨by simpa using fun hc => hne (congrArg String.toList hc), ?_⟩
        rw [toList_mk, List.all_eq_true]
        exact hds
    · rw [if_neg hne] at hs
      exact hacc s hs
  have hinv : ∀ (l : List Char) (acc : List String) (cur : Option (List Char)),
      (∀ s ∈ acc, pyIsdigit s = true) →
      (∀ ds, cur = some ds → ∀ c ∈ ds, c.isDigit = true) →
      (∀ s ∈ (l.foldl findNumsStep (acc, cur)).1, pyIsdigit s = true) ∧
      (∀ ds, (l.foldl findNumsStep (acc, cur)).2 = some ds →
        ∀ c ∈ ds, c.isDigit = true) := by
    intro l
    induction l with
    | nil => exact fun acc cur h1 h2 => ⟨h1, h2⟩
    | cons c rest ih =>
      intro acc cur h1 h2
      rw [List.foldl_cons]
      rcases cur with _ | ds0
      · have hstep : findNumsStep (acc, none) c =
            (acc, if c = '_' then some [] else none) := rfl
        rw [hstep]
        apply ih
        · exact h1
        · intro ds hds c' hc'
          by_cases hu : c = '_'
          · rw [if_pos hu] at hds
            injection hds with he
            subst he
            simp at hc'
          · rw [if_neg hu] at hds
            exact absurd hds (by simp)
      · have h2' : ∀ c' ∈ ds0, c'.isDigit = true := h2 ds0 rfl
        by_cases hdig : c.isDigit
        · have hstep : findNumsStep (acc, some ds0) c = (acc, some (ds0 ++ [c])) := by
            simp [findNumsStep, hdig]
          rw [hstep]
          apply ih
          · exact h1
          · intro ds hds c' hc'
            injection hds with he
            subst he
            rcases List.mem_append.mp hc' with h | h
            · exact h2' c' h
            · simp only [List.mem_singleton] at h
              subst h
              exact hdig
        · have hstep : findNumsStep (acc, some ds0) c =
              ((if ds0 ≠ [] then acc ++ [String.mk ds0] else acc),
                if c = '_' then some [] else none) := by
            simp only [findNumsStep, Bool.not_eq_true] at *
            rw [hdig]
            simp
          rw [hstep]
          apply ih
          · exact hflush acc ds0 h1 h2'
          · intro ds hds c' hc'
            by_cases hu : c = '_'
            · rw [if_pos hu] at hds
              injection hds with he
              subst he
              simp at hc'
            · rw [if_neg hu] at hds
              exact absurd hds (by simp)
  intro s hs
  unfold findNums at hs
  obtain ⟨hacc, hcur⟩ := hinv cs [] none (by simp) (by simp)
  rcases hfin : (List.foldl findNumsStep ([], none) cs).2 with _ | ds
  · simp only [hfin] at hs
    exact hacc s hs
  · simp only [hfin] at hs
    exact hflush _ ds hacc (hcur ds hfin) s hs

/-- `extract_odds_rows_from_api_payload` when the bet type is unknown. -/
theorem extract_api_eq_none1 {payload : J} {bt : String} {entries : List Dict}
    (h1 : alistGet API_ODDS_TYPE_MAP bt = none) :
    extract_odds_rows_from_api_payload payload bt entries = [] := by
  unfold extract_odds_rows_from_api_payload
  simp only [h1]

/-- `extract_odds_rows_from_api_payload` when the typed payload is
missing or empty. -/
theorem extract_api_eq_none2 {payload : J} {bt : String} {entries : List Dict}
    {api_type : String} (h1 : alistGet API_ODDS_TYPE_MAP bt = some api_type)
    (h2 : typedOdds payload api_type = none) :
    extract_odds_rows_from_api_payload payload bt entries = [] := by
  unfold extract_odds_rows_from_api_payload
  simp only [h1, h2]

/-- `extract_odds_rows_from_api_payload` on a present typed payload. -/
theorem extract_api_eq_some {payload : J} {bt : String} {entries : List Dict}
    {api_type : String} {kvs : List (String × J)}
    (h1 : alistGet API_ODDS_TYPE_MAP bt = some api_type)
    (h2 : typedOdds payload api_type = some kvs) :
    extract_odds_rows_from_api_payload payload bt entries =
      (if bt = "単勝" ∨ bt = "複勝" then
        sortByKey singlesSortKey
          (kvs.filterMap (apiSingleRow bt (horseNameByNo entries)))
      else
        sortByKey (fun row => combo_sort_key (dictGetD row "組み合わせ" ""))
          (kvs.filterMap (apiComboRow bt
            (if bt = "三連複" ∨ bt = "三連単" then 3 else 2)))) := by
  unfold extract_odds_rows_from_api_payload
  simp only [h1, h2]

/-- Inversion of the combination loop body: an emitted row comes from a
nonempty list value under a key whose 2-char chunks are `combo_size`
many digit groups, and the row is fully determined by them. -/
theorem apiComboRow_inv {bt : String} {combo_size : Nat} {p : String × J}
    {row : Dict} (h : apiComboRow bt combo_size p = some row) :
    ∃ values, p.2 = J.arr values ∧ values ≠ [] ∧
      (chunk2 p.1.toList).length = combo_size ∧
      (∀ part ∈ chunk2 p.1.toList, pyIsdigit part = true) ∧
      row = [("組み合わせ", strIntercalate "-" ((chunk2 p.1.toList).map stripZeros)),
             ("オッズ", normalize_odds_value (apiOddsValue values (bt = "ワイド")))] := by
  unfold apiComboRow at h
  rcases hp2 : p.2 with _ | _ | _ | _ | values | _ <;> simp only [hp2] at h
  case null => exact absurd h (by simp)
  case b => exact absurd h (by simp)
  case num => exact absurd h (by simp)
  case s => exact absurd h (by simp)
  case obj => exact absurd h (by simp)
  case arr =>
    by_cases hemp : values.isEmpty
    · rw [if_pos hemp] at h
      exact absurd h (by simp)
    · rw [if_neg hemp] at h
      by_cases harity : (chunk2 p.1.toList).length ≠ combo_size ∨
          ¬ ((chunk2 p.1.toList).all (fun part => pyIsdigit part) = true)
      · rw [if_pos harity] at h
        exact absurd h (by simp)
      · rw [if_neg harity] at h
        push_neg at harity
        obtain ⟨hlen, hall⟩ := harity
        refine ⟨values, rfl, by simpa using hemp, hlen, ?_, ?_⟩
        · intro part hpart
          exact (List.all_eq_true.mp hall) part hpart
        · injection h with he
          exact he.symm

/-- Inversion of the singles loop body: an emitted row comes from a
nonempty list value, and its odds text is normalized. -/
theorem apiSingleRow_inv {bt : String} {names : Dict} {p : String × J}
    {row : Dict} (h : apiSingleRow bt names p = some row) :
    ∃ values horse_no, p.2 = J.arr values ∧ values ≠ [] ∧
      horse_no = (if pyIsdigit p.1 then stripZeros p.1 else p.1) ∧
      row = [("馬番", horse_no), ("馬名", dictGetD names horse_no ""),
             ("オッズ", normalize_odds_value (apiOddsValue values (bt = "複勝")))] := by
  unfold apiSingleRow at h
  rcases hp2 : p.2 with _ | _ | _ | _ | values | _ <;> simp only [hp2] at h
  case null => exact absurd h (by simp)
  case b => exact absurd h (by simp)
  case num => exact absurd h (by simp)
  case s => exact absurd h (by simp)
  case obj => exact absurd h (by simp)
  case arr =>
    by_cases hemp : values.isEmpty
    · rw [if_pos hemp] at h
      exact absurd h (by simp)
    · rw [if_neg hemp] at h
      injection h with he
      exact ⟨values, _, rfl, by simpa using hemp, rfl, he.symm⟩

/-- Provenance of API combination rows: each comes from one typed-odds
entry, with the combination string decoded from the key's chunks in key
order. -/
theorem api_combo_provenance {payload : J} {bt : String} {entries : List Dict}
    {row : Dict} (hbt : ¬(bt = "単勝" ∨ bt = "複勝"))
    (h : row ∈ extract_odds_rows_from_api_payload payload bt entries) :
    ∃ api_type kvs key values,
      alistGet API_ODDS_TYPE_MAP bt = some api_type ∧
      typedOdds payload api_type = some kvs ∧
      (key, J.arr values) ∈ kvs ∧ values ≠ [] ∧
      (chunk2 key.toList).length = (if bt = "三連複" ∨ bt = "三連単" then 3 else 2) ∧
      (∀ part ∈ chunk2 key.toList, pyIsdigit part = true) ∧
      row = [("組み合わせ", strIntercalate "-" ((chunk2 key.toList).map stripZeros)),
             ("オッズ", normalize_odds_value (apiOddsValue values (bt = "ワイド")))] := by
  rcases halist : alistGet API_ODDS_TYPE_MAP bt with _ | api_type
  · rw [extract_api_eq_none1 halist] at h
    exact absurd h (by simp)
  · rcases htyped : typedOdds payload api_type with _ | kvs
    · rw [extract_api_eq_none2 halist htyped] at h
      exact absurd h (by simp)
    · rw [extract_api_eq_some halist htyped, if_neg hbt, mem_sortByKey,
        List.mem_filterMap] at h
      obtain ⟨p, hpmem, hprow⟩ := h
      obtain ⟨values, hv, hvne, hlen, hdig, hroweq⟩ := apiComboRow_inv hprow
      refine ⟨api_type, kvs, p.1, values, rfl, htyped, ?_, hvne, hlen, hdig, hroweq⟩
      rw [← hv]
      exact hpmem

/-- Provenance of API singles rows. -/
theorem api_single_provenance {payload : J} {bt : String} {entries : List Dict}
    {row : Dict} (hbt : bt = "単勝" ∨ bt = "複勝")
    (h : row ∈ extract_odds_rows_from_api_payload payload bt entries) :
    ∃ api_type kvs p,
      alistGet API_ODDS_TYPE_MAP bt = some api_type ∧
      typedOdds payload api_type = some kvs ∧ p ∈ kvs ∧
      apiSingleRow bt (horseNameByNo entries) p = some row := by
  rcases halist : alistGet API_ODDS_TYPE_MAP bt with _ | api_type
  · rw [extract_api_eq_none1 halist] at h
    exact absurd h (by simp)
  · rcases htyped : typedOdds payload api_type with _ | kvs
    · rw [extract_api_eq_none2 halist htyped] at h
      exact absurd h (by simp)
    · rw [extract_api_eq_some halist htyped, if_pos hbt, mem_sortByKey,
        List.mem_filterMap] at h
      obtain ⟨p, hpmem, hprow⟩ := h
      exact ⟨api_type, kvs, p, rfl, htyped, hpmem, hprow⟩

/-- Entries after folding a keyed `upsert` over values come from the
accumulator or are among the folded values. -/
theorem mem_foldl_upsert_key_cases {α : Type} (key : α → String) {q : String × α}
    (xs : List α) (acc : List (String × α))
    (h : q ∈ xs.foldl (fun a x => upsert (key x) x a) acc) :
    q ∈ acc ∨ q.2 ∈ xs := by
  induction xs generalizing acc with
  | nil => exact Or.inl h
  | cons x rest ih =>
    rcases ih _ h with h' | h'
    · rcases mem_upsert_cases h' with h'' | h''
      · right
        rw [h'']
        exact List.mem_cons_self _ _
      · exact Or.inl h''
    · exact Or.inr (List.mem_cons_of_mem _ h')

/-- Provenance of cart-item rows: each row of `_extract_cart_items` is
`cartRow` of one scanned cell. -/
theorem extract_cart_items_provenance {soup : Soup} {bt : String} {ik : Bool}
    {row : Dict} (h : row ∈ extract_cart_items soup bt ik) :
    ∃ cell ∈ soup.cartCells, cartRow bt ik cell = some row := by
  unfold extract_cart_items at h
  rw [mem_sortByKey] at h
  simp only at h
  rw [List.mem_map] at h
  obtain ⟨q, hq, hqrow⟩ := h
  rcases mem_foldl_upsert_key_cases _ _ _ hq with hacc | hval
  · exact absurd hacc (by simp)
  · rw [hqrow] at hval
    rw [List.mem_filterMap] at hval
    obtain ⟨cell, hcell, hrow⟩ := hval
    exact ⟨cell, hcell, hrow⟩

/-- Inversion of the cart-cell body: the kept row joins exactly the
trailing `expected` tokens of the attribute's digit groups, and its odds
text is normalized. -/
theorem cartRow_inv {bt : String} {ik : Bool} {cell : Cell} {row : Dict}
    (h : cartRow bt ik cell = some row) :
    (((findNums (cell.cartItem.getD "").toList).drop
        ((findNums (cell.cartItem.getD "").toList).length - cartExpectedCount bt)).length
      = cartExpectedCount bt) ∧
    alistGet row "組み合わせ" = some (strIntercalate "-"
      ((findNums (cell.cartItem.getD "").toList).drop
        ((findNums (cell.cartItem.getD "").toList).length - cartExpectedCount bt))) ∧
    ∃ ov, alistGet row "オッズ" = some (normalize_odds_value ov) := by
  unfold cartRow at h
  by_cases hlen : (((findNums (cell.cartItem.getD "").toList).drop
      ((findNums (cell.cartItem.getD "").toList).length - cartExpectedCount bt)).length
      ≠ cartExpectedCount bt)
  · rw [if_pos hlen] at h
    exact absurd h (by simp)
  · rw [if_neg hlen] at h
    rw [not_not] at hlen
    injection h with he
    refine ⟨hlen, ?_, ?_⟩
    · rw [← he]
      cases ik <;> rfl
    · refine ⟨(match cell.oddsSpan with
        | some t => t
        | none => collapseWs cell.text), ?_⟩
      rw [← he]
      cases ik <;> rfl

end RowProvenance

section C4Arity

/-- A trifecta payload with a well-formed key and a wrong-arity key. -/
def trifPayloadC4 : J :=
  J.obj [("data", J.obj [("odds", J.obj [("8", J.obj
    [("010203", J.arr [J.s "7.0"]), ("0102", J.arr [J.s "8.0"])])])])]

/-- C4: every combination row emitted by the JSON combination parser or
by cart-item extraction joins exactly 2 or 3 (per the bet-type family)
all-numeric tokens, with an odds field always present (no partial rows);
and the trifecta key `"010203"` yields combination `"1-2-3"` while the
wrong-arity key `"0102"` yields no trifecta row at all. -/
theorem C4_combination_arity :
    (∀ (payload : J) (bt : String) (entries : List Dict) (row : Dict),
      ¬(bt = "単勝" ∨ bt = "複勝") →
      row ∈ extract_odds_rows_from_api_payload payload bt entries →
      ∃ parts : List String,
        alistGet row "組み合わせ" = some (strIntercalate "-" parts) ∧
        parts.length = (if bt = "三連複" ∨ bt = "三連単" then 3 else 2) ∧
        (∀ p ∈ parts, pyIsdigit p = true) ∧
        (alistGet row "オッズ").isSome = true) ∧
    (∀ (soup : Soup) (bt : String) (ik : Bool) (row : Dict),
      row ∈ extract_cart_items soup bt ik →
      ∃ parts : List String,
        alistGet row "組み合わせ" = some (strIntercalate "-" parts) ∧
        parts.length = cartExpectedCount bt ∧
        (∀ p ∈ parts, pyIsdigit p = true) ∧
        (alistGet row "オッズ").isSome = true) ∧
    extract_odds_rows_from_api_payload trifPayloadC4 "三連単" [] =
      [[("組み合わせ", "1-2-3"), ("オッズ", "7.0")]] := by
  refine ⟨?_, ?_, by decide⟩
  · intro payload bt entries row hbt h
    obtain ⟨api_type, kvs, key, values, _, _, _, _, hlen, hdig, hroweq⟩ :=
      api_combo_provenance hbt h
    refine ⟨(chunk2 key.toList).map stripZeros, ?_, ?_, ?_, ?_⟩
    · rw [hroweq]
      rfl
    · rw [List.length_map, hlen]
    · intro p hp
      rw [List.mem_map] at hp
      obtain ⟨part, _, hpeq⟩ := hp
      rw [← hpeq]
      exact stripZeros_isdigit part
    · rw [hroweq]
      rfl
  · intro soup bt ik row h
    obtain ⟨cell, hcell, hrow⟩ := extract_cart_items_provenance h
    obtain ⟨hlen, hcombo, ov, hodds⟩ := cartRow_inv hrow
    refine ⟨_, hcombo, hlen, ?_, by rw [hodds]; rfl⟩
    intro p hp
    exact findNums_digits _ p (List.mem_of_mem_drop hp)

/-- A page with one trifecta cart cell. -/
def cartSoupC4 : Soup :=
  { cartCells := [{ text := "7.5", cartItem := some "santan_1_2_3" }] }

/-- C4 (witness): concrete trifecta rows from the API payload and from a
cart cell decompose into exactly three numeric tokens. -/
theorem C4_witness :
    (∃ parts : List String,
      alistGet [("組み合わせ", "1-2-3"), ("オッズ", "7.0")] "組み合わせ" =
        some (strIntercalate "-" parts) ∧
      parts.length = 3 ∧ (∀ p ∈ parts, pyIsdigit p = true)) ∧
    (∃ parts : List String,
      alistGet [("組み合わせ", "1-2-3"), ("オッズ", "7.5")] "組み合わせ" =
        some (strIntercalate "-" parts) ∧
      parts.length = 3 ∧ (∀ p ∈ parts, pyIsdigit p = true)) := by
  constructor
  · obtain ⟨parts, h1, h2, h3, _⟩ := C4_combination_arity.1 trifPayloadC4 "三連単" []
      [("組み合わせ", "1-2-3"), ("オッズ", "7.0")] (by decide) (by decide)
    exact ⟨parts, h1, h2.trans (by decide), h3⟩
  · obtain ⟨parts, h1, h2, h3, _⟩ := C4_combination_arity.2.1 cartSoupC4 "三連単" false
      [("組み合わせ", "1-2-3"), ("オッズ", "7.5")] (by decide)
    exact ⟨parts, h1, h2.trans (by decide), h3⟩

end C4Arity

section C1ComboOrder

/-- Is the numeric tuple strictly ascending? -/
def strictlyAscending : List Nat → Bool
  | [] => true
  | [_] => true
  | a :: b :: rest => a < b && strictlyAscending (b :: rest)

/-- C1 (counterexample): a quinella API key `"0201"` yields the
combination string `"2-1"` and a quinella cart attribute `"umaren_2_1"`
likewise — the horse numbers are NOT in ascending numeric order, they
are in source order. -/
theorem C1_counterexample :
    extract_odds_rows_from_api_payload
      (J.obj [("data", J.obj [("odds", J.obj [("4", J.obj
        [("0201", J.arr [J.s "5.0"])])])])]) "馬連" [] =
      [[("組み合わせ", "2-1"), ("オッズ", "5.0")]] ∧
    extract_cart_items
      { cartCells := [{ text := "9.9", cartItem := some "umaren_2_1" }] }
      "馬連" false = [[("組み合わせ", "2-1"), ("オッズ", "9.9")]] ∧
    strictlyAscending (combo_sort_key "2-1") = false := by
  decide

/-- C1 (amended): every combination row's string joins the decoded horse
numbers in the order they appear in the source — the API key's 2-digit
chunk order, or the cart attribute's token order — not sorted
ascending. -/
theorem C1_combination_source_order :
    (∀ (payload : J) (bt : String) (entries : List Dict) (row : Dict),
      ¬(bt = "単勝" ∨ bt = "複勝") →
      row ∈ extract_odds_rows_from_api_payload payload bt entries →
      ∃ api_type kvs key values,
        alistGet API_ODDS_TYPE_MAP bt = some api_type ∧
        typedOdds payload api_type = some kvs ∧ (key, J.arr values) ∈ kvs ∧
        alistGet row "組み合わせ" =
          some (strIntercalate "-" ((chunk2 key.toList).map stripZeros))) ∧
    (∀ (soup : Soup) (bt : String) (ik : Bool) (row : Dict),
      row ∈ extract_cart_items soup bt ik →
      ∃ cell ∈ soup.cartCells,
        alistGet row "組み合わせ" = some (strIntercalate "-"
          ((findNums (cell.cartItem.getD "").toList).drop
            ((findNums (cell.cartItem.getD "").toList).length -
              cartExpectedCount bt)))) := by
  constructor
  · intro payload bt entries row hbt h
    obtain ⟨api_type, kvs, key, values, h1, h2, h3, _, _, _, hroweq⟩ :=
      api_combo_provenance hbt h
    refine ⟨api_type, kvs, key, values, h1, h2, h3, ?_⟩
    rw [hroweq]
    rfl
  · intro soup bt ik row h
    obtain ⟨cell, hcell, hrow⟩ := extract_cart_items_provenance h
    obtain ⟨_, hcombo, _⟩ := cartRow_inv hrow
    exact ⟨cell, hcell, hcombo⟩

/-- C1 (witness): the amended order statement applied to the concrete
quinella payload and cart page. -/
theorem C1_witness :
    (∃ api_type kvs key values,
      alistGet API_ODDS_TYPE_MAP "馬連" = some api_type ∧
      typedOdds (J.obj [("data", J.obj [("odds", J.obj [("4", J.obj
        [("0201", J.arr [J.s "5.0"])])])])]) api_type = some kvs ∧
      (key, J.arr values) ∈ kvs ∧
      alistGet [("組み合わせ", "2-1"), ("オッズ", "5.0")] "組み合わせ" =
        some (strIntercalate "-" ((chunk2 key.toList).map stripZeros))) ∧
    (∃ cell ∈ ({ cartCells := [{ text := "9.9", cartItem := some "umaren_2_1" }] }
        : Soup).cartCells,
      alistGet [("組み合わせ", "2-1"), ("オッズ", "9.9")] "組み合わせ" =
        some (strIntercalate "-"
          ((findNums (cell.cartItem.getD "").toList).drop
            ((findNums (cell.cartItem.getD "").toList).length -
              cartExpectedCount "馬連")))) :=
  ⟨C1_combination_source_order.1
      (J.obj [("data", J.obj [("odds", J.obj [("4", J.obj
        [("0201", J.arr [J.s "5.0"])])])])]) "馬連" []
      [("組み合わせ", "2-1"), ("オッズ", "5.0")] (by decide) (by decide),
   C1_combination_source_order.2
      { cartCells := [{ text := "9.9", cartItem := some "umaren_2_1" }] } "馬連" false
      [("組み合わせ", "2-1"), ("オッズ", "9.9")] (by decide)⟩

end C1ComboOrder

section C6StatusClassifier

/-- Append the optional API-derived reason to a status message. -/
def appendApiReason (message : String) (api_reason : Option String) : String :=
  if api_reason.getD "" ≠ "" then
    message ++ " (api_reason: " ++ api_reason.getD "" ++ ")"
  else message

/-- Append the optional future-race-date hint to a status message. -/
def appendHint (message : String) (hint : Option String) : String :=
  if hint.getD "" ≠ "" then message ++ " (" ++ hint.getD "" ++ ")" else message

/-- C6: for a bet type whose extraction did not raise, the classifier
returns `missing` on zero rows and `unavailable` on rows with no
available odds text — both messages carrying the optional API reason and
the optional future-date hint — and `ok` otherwise, always reporting the
extracted row count. -/
theorem C6_build_odds_status (env : Env) (bet_type : String) (rows : List Dict)
    (urls : List (String × String)) (race_date : Option String) :
    (rows = [] →
      build_odds_status env bet_type rows urls race_date =
        ⟨"missing", 0,
          appendHint
            (appendApiReason (bet_type ++ "のオッズを取得できませんでした")
              (fetch_jra_odds_reason env (alistGet urls bet_type) bet_type))
            (build_future_race_hint env race_date),
          alistGet urls bet_type⟩) ∧
    (rows ≠ [] → (∃ row ∈ rows, has_available_odds (dictGetD row "オッズ" "") = true) →
      build_odds_status env bet_type rows urls race_date =
        ⟨"ok", rows.length, bet_type ++ "のオッズを取得しました",
          alistGet urls bet_type⟩) ∧
    (rows ≠ [] → (∀ row ∈ rows, has_available_odds (dictGetD row "オッズ" "") = false) →
      build_odds_status env bet_type rows urls race_date =
        ⟨"unavailable", rows.length,
          appendHint
            (appendApiReason (bet_type ++ "は発売前または未更新の可能性があります")
              (fetch_jra_odds_reason env (alistGet urls bet_type) bet_type))
            (build_future_race_hint env race_date),
          alistGet urls bet_type⟩) := by
  refine ⟨?_, ?_, ?_⟩
  · intro hrows
    subst hrows
    rfl
  · intro hne hav
    unfold build_odds_status
    rw [if_neg (by simpa using hne)]
    rw [if_pos (List.any_eq_true.mpr (by simpa using hav))]
  · intro hne hnav
    unfold build_odds_status
    rw [if_neg (by simpa using hne)]
    rw [if_neg (by
      rw [List.any_eq_true]
      push_neg
      intro row hrow
      simp [hnav row hrow])]
    rfl

/-- A stub environment: every page is empty, the odds API is down,
today is 2024-06-01. -/
def envStub : Env where
  fetchHtml := fun _ => .ok {}
  rawPayload := fun _ _ _ => .error "network unavailable"
  today := (2024, 6, 1)
  urljoin := fun _ href => href

/-- C6 (witness): the classifier applied to zero rows and to a row with
odds text "1.5". -/
theorem C6_witness :
    build_odds_status envStub "単勝" [] [] none =
      ⟨"missing", 0,
        appendHint
          (appendApiReason ("単勝" ++ "のオッズを取得できませんでした")
            (fetch_jra_odds_reason envStub (alistGet [] "単勝") "単勝"))
          (build_future_race_hint envStub none),
        alistGet [] "単勝"⟩ ∧
    build_odds_status envStub "単勝" [[("オッズ", "1.5")]] [] none =
      ⟨"ok", 1, "単勝" ++ "のオッズを取得しました", alistGet [] "単勝"⟩ :=
  ⟨(C6_build_odds_status envStub "単勝" [] [] none).1 rfl,
   by
    have h := (C6_build_odds_status envStub "単勝" [[("オッズ", "1.5")]] [] none).2.1
      (by decide) ⟨[("オッズ", "1.5")], by decide, by decide⟩
    exact h.trans (by decide)⟩

end C6StatusClassifier

section C3CommaFree

/-- The row's odds text carries no thousands-separator comma. -/
def OddsCommaFree (row : Dict) : Prop := ',' ∉ (dictGetD row "オッズ" "").toList

/-- `Except` bind on a success. -/
theorem except_bind_ok {ε α β : Type} (a : α) (f : α → Except ε β) :
    (Except.ok a >>= f) = f a := rfl

/-- `Except` bind on a failure. -/
theorem except_bind_err {ε α β : Type} (msg : ε) (f : α → Except ε β) :
    ((Except.error msg : Except ε α) >>= f) = Except.error msg := rfl

/-- Every API-extracted row has comma-free odds text. -/
theorem api_rows_commaFree {payload : J} {bt : String} {entries : List Dict}
    {row : Dict} (h : row ∈ extract_odds_rows_from_api_payload payload bt entries) :
    OddsCommaFree row := by
  by_cases hbt : bt = "単勝" ∨ bt = "複勝"
  · obtain ⟨_, _, p, _, _, _, hprow⟩ := api_single_provenance hbt h
    obtain ⟨values, horse_no, _, _, _, hroweq⟩ := apiSingleRow_inv hprow
    unfold OddsCommaFree
    rw [hroweq]
    exact comma_notMem_normalize _
  · obtain ⟨_, _, key, values, _, _, _, _, _, _, hroweq⟩ := api_combo_provenance hbt h
    unfold OddsCommaFree
    rw [hroweq]
    exact comma_notMem_normalize _

/-- Every cart-item row has comma-free odds text. -/
theorem cart_rows_commaFree {soup : Soup} {bt : String} {ik : Bool} {row : Dict}
    (h : row ∈ extract_cart_items soup bt ik) : OddsCommaFree row := by
  obtain ⟨cell, _, hrow⟩ := extract_cart_items_provenance h
  obtain ⟨_, _, ov, hodds⟩ := cartRow_inv hrow
  unfold OddsCommaFree dictGetD
  rw [hodds]
  exact comma_notMem_normalize _

/-- Both outputs of the win/place splitter have comma-free odds text. -/
theorem split_tansho_commaFree (src : List Dict) :
    (∀ r ∈ (split_tansho_fukusho src).1, OddsCommaFree r) ∧
    (∀ r ∈ (split_tansho_fukusho src).2, OddsCommaFree r) := by
  constructor <;>
  · intro r hr
    unfold split_tansho_fukusho at hr
    simp only [List.map_map, List.mem_map] at hr
    obtain ⟨row, _, heq⟩ := hr
    unfold OddsCommaFree
    rw [← heq]
    exact comma_notMem_normalize _

/-- Both outputs of the quinella/quinella-place splitter have comma-free
odds text. -/
theorem split_umaren_commaFree (src : List Dict) :
    (∀ r ∈ (split_umaren_wide src).1, OddsCommaFree r) ∧
    (∀ r ∈ (split_umaren_wide src).2, OddsCommaFree r) := by
  constructor <;>
  · intro r hr
    unfold split_umaren_wide at hr
    simp only [List.map_map, List.mem_map] at hr
    obtain ⟨row, _, heq⟩ := hr
    unfold OddsCommaFree
    rw [← heq]
    exact comma_notMem_normalize _

/-- Every positional win/place row has comma-free odds text. -/
theorem positional_rows_commaFree {t : Table} {row : Dict}
    (h : row ∈ winPlacePositionalRows t) : OddsCommaFree row := by
  unfold winPlacePositionalRows at h
  rw [List.mem_filterMap] at h
  obtain ⟨tr, _, htr⟩ := h
  by_cases hlen : (tr.td.map (·.text)).length < 3
  · rw [if_pos hlen] at htr
    exact absurd htr (by simp)
  · rw [if_neg hlen] at htr
    by_cases hno : (if ¬ pyIsdigit (pyStrip (((tr.td.map (·.text)).drop 1).headD "")) then
        ((tr.td.map (·.text)).find? (fun v => pyIsdigit (pyStrip v))).getD ""
      else pyStrip (((tr.td.map (·.text)).drop 1).headD "")) = ""
    · rw [if_pos hno] at htr
      exact absurd htr (by simp)
    · rw [if_neg hno] at htr
      injection htr with he
      unfold OddsCommaFree
      rw [← he]
      exact comma_notMem_normalize _

/-- Every row found via the positional win/place mapping has comma-free
odds text. -/
theorem extract_win_place_commaFree {soup : Soup} {bt : String} {rows : List Dict}
    {row : Dict} (hlook : alistGet (extract_win_place_by_table_position soup) bt = some rows)
    (hrow : row ∈ rows) : OddsCommaFree row := by
  unfold extract_win_place_by_table_position at hlook
  by_cases hn : soup.tables.length < 2
  · rw [if_pos hn] at hlook
    unfold alistGet alistGet at hlook
    by_cases h1 : "単勝" = bt
    · rw [if_pos h1] at hlook
      injection hlook with he
      rw [← he] at hrow
      exact absurd hrow (by simp)
    · rw [if_neg h1] at hlook
      by_cases h2 : "複勝" = bt
      · rw [if_pos h2] at hlook
        injection hlook with he
        rw [← he] at hrow
        exact absurd hrow (by simp)
      · rw [if_neg h2] at hlook
        exact absurd hlook (by simp [alistGet])
  · rw [if_neg hn] at hlook
    unfold alistGet alistGet at hlook
    by_cases h1 : "単勝" = bt
    · rw [if_pos h1] at hlook
      injection hlook with he
      rw [← he] at hrow
      exact positional_rows_commaFree hrow
    · rw [if_neg h1] at hlook
      by_cases h2 : "複勝" = bt
      · rw [if_pos h2] at hlook
        injection hlook with he
        rw [← he] at hrow
        exact positional_rows_commaFree hrow
      · rw [if_neg h2] at hlook
        exact absurd hlook (by simp [alistGet])

/-- A heading step changes a win/place bucket only to a win/place-split
output. -/
theorem headingStep_wp {acc : List (String × List Dict)} {hd : Heading} {bt : String}
    (hbt : bt = "単勝" ∨ bt = "複勝") {rows : List Dict}
    (hlook : alistGet (headingStep acc hd) bt = some rows) :
    alistGet acc bt = some rows ∨
      (∃ src, rows = (split_tansho_fukusho src).1 ∨ rows = (split_tansho_fukusho src).2) := by
  have hne1 : bt ≠ "馬連" := by rcases hbt with h | h <;> subst h <;> decide
  have hne2 : bt ≠ "ワイド" := by rcases hbt with h | h <;> subst h <;> decide
  have hne3 : bt ≠ "枠連" := by rcases hbt with h | h <;> subst h <;> decide
  have hne4 : bt ≠ "馬単" := by rcases hbt with h | h <;> subst h <;> decide
  have hne5 : bt ≠ "三連複" := by rcases hbt with h | h <;> subst h <;> decide
  have hne6 : bt ≠ "三連単" := by rcases hbt with h | h <;> subst h <;> decide
  unfold headingStep at hlook
  rcases htab : hd.nextTable with _ | table
  · simp only [htab] at hlook
    exact Or.inl hlook
  · simp only [htab] at hlook
    by_cases hemp : (parse_table table).isEmpty
    · rw [if_pos hemp] at hlook
      exact Or.inl hlook
    · rw [if_neg hemp] at hlook
      by_cases hc1 : pyContains (pyReplace hd.text "３" "3") "単勝" = true ∧
          pyContains (pyReplace hd.text "３" "3") "複勝" = true
      · rw [if_pos hc1] at hlook
        by_cases hs2 : ¬ (split_tansho_fukusho (parse_table table)).2.isEmpty
        · rw [if_pos hs2] at hlook
          by_cases hbt2 : bt = "複勝"
          · subst hbt2
            rw [alistGet_upsert_self] at hlook
            injection hlook with he
            exact Or.inr ⟨parse_table table, Or.inr he.symm⟩
          · rw [alistGet_upsert_ne _ _ hbt2] at hlook
            by_cases hs1 : ¬ (split_tansho_fukusho (parse_table table)).1.isEmpty
            · rw [if_pos hs1] at hlook
              by_cases hbt1 : bt = "単勝"
              · subst hbt1
                rw [alistGet_upsert_self] at hlook
                injection hlook with he
                exact Or.inr ⟨parse_table table, Or.inl he.symm⟩
              · rw [alistGet_upsert_ne _ _ hbt1] at hlook
                exact Or.inl hlook
            · rw [if_neg hs1] at hlook
              exact Or.inl hlook
        · rw [if_neg hs2] at hlook
          by_cases hs1 : ¬ (split_tansho_fukusho (parse_table table)).1.isEmpty
          · rw [if_pos hs1] at hlook
            by_cases hbt1 : bt = "単勝"
            · subst hbt1
              rw [alistGet_upsert_self] at hlook
              injection hlook with he
              exact Or.inr ⟨parse_table table, Or.inl he.symm⟩
            · rw [alistGet_upsert_ne _ _ hbt1] at hlook
              exact Or.inl hlook
          · rw [if_neg hs1] at hlook
            exact Or.inl hlook
      · rw [if_neg hc1] at hlook
        by_cases hc2 : pyContains (pyReplace hd.text "３" "3") "馬連" = true ∧
            pyContains (pyReplace hd.text "３" "3") "ワイド" = true
        · rw [if_pos hc2] at hlook
          by_cases hs2 : ¬ (split_umaren_wide (parse_table table)).2.isEmpty
          · rw [if_pos hs2, alistGet_upsert_ne _ _ hne2] at hlook
            by_cases hs1 : ¬ (split_umaren_wide (parse_table table)).1.isEmpty
            · rw [if_pos hs1, alistGet_upsert_ne _ _ hne1] at hlook
              exact Or.inl hlook
            · rw [if_neg hs1] at hlook
              exact Or.inl hlook
          · rw [if_neg hs2] at hlook
            by_cases hs1 : ¬ (split_umaren_wide (parse_table table)).1.isEmpty
            · rw [if_pos hs1, alistGet_upsert_ne _ _ hne1] at hlook
              exact Or.inl hlook
            · rw [if_neg hs1] at hlook
              exact Or.inl hlook
        · rw [if_neg hc2] at hlook
          by_cases hc3 : pyContains (pyReplace hd.text "３" "3") "枠連" = true
          · rw [if_pos hc3, alistGet_upsert_ne _ _ hne3] at hlook
            exact Or.inl hlook
          · rw [if_neg hc3] at hlook
            by_cases hc4 : pyContains (pyReplace hd.text "３" "3") "馬単" = true
            · rw [if_pos hc4, alistGet_upsert_ne _ _ hne4] at hlook
              exact Or.inl hlook
            · rw [if_neg hc4] at hlook
              by_cases hc5 : pyContains (pyReplace hd.text "３" "3") "3連複" = true
              · rw [if_pos hc5, alistGet_upsert_ne _ _ hne5] at hlook
                exact Or.inl hlook
              · rw [if_neg hc5] at hlook
                by_cases hc6 : pyContains (pyReplace hd.text "３" "3") "3連単" = true
                · rw [if_pos hc6, alistGet_upsert_ne _ _ hne6] at hlook
                  exact Or.inl hlook
                · rw [if_neg hc6] at hlook
                  exact Or.inl hlook

/-- Across the whole heading fold, a win/place bucket is empty or a
splitter output. -/
theorem extract_odds_by_bet_type_wp {soup : Soup} {bt : String}
    (hbt : bt = "単勝" ∨ bt = "複勝") {rows : List Dict}
    (hlook : alistGet (extract_odds_by_bet_type soup) bt = some rows) :
    rows = [] ∨
      (∃ src, rows = (split_tansho_fukusho src).1 ∨ rows = (split_tansho_fukusho src).2) := by
  unfold extract_odds_by_bet_type at hlook
  have hgen : ∀ (hs : List Heading) (acc : List (String × List Dict)),
      (∀ rows0, alistGet acc bt = some rows0 → rows0 = [] ∨
        (∃ src, rows0 = (split_tansho_fukusho src).1 ∨
          rows0 = (split_tansho_fukusho src).2)) →
      ∀ rows0, alistGet (hs.foldl headingStep acc) bt = some rows0 → rows0 = [] ∨
        (∃ src, rows0 = (split_tansho_fukusho src).1 ∨
          rows0 = (split_tansho_fukusho src).2) := by
    intro hs
    induction hs with
    | nil => exact fun acc hacc => hacc
    | cons hd rest ih =>
      intro acc hacc rows0 hlook0
      refine ih (headingStep acc hd) ?_ rows0 hlook0
      intro rows1 hlook1
      rcases headingStep_wp hbt hlook1 with h' | h'
      · exact hacc rows1 h'
      · exact Or.inr h'
  refine hgen soup.headings _ ?_ rows hlook
  intro rows0 hlook0
  left
  rcases hbt with h | h <;> subst h <;>
    simp only [BET_TYPES, List.map_cons, alistGet] at hlook0 <;>
    simp_all

/-- Every row in a surfaced (win/place) bucket of the heading-routed
extraction has comma-free odds text. -/
theorem heading_rows_commaFree {soup : Soup} {bt : String}
    (hbt : bt = "単勝" ∨ bt = "複勝") {rows : List Dict} {row : Dict}
    (hlook : alistGet (extract_odds_by_bet_type soup) bt = some rows)
    (hrow : row ∈ rows) : OddsCommaFree row := by
  rcases extract_odds_by_bet_type_wp hbt hlook with h | ⟨src, h | h⟩
  · subst h
    exact absurd hrow (by simp)
  · subst h
    exact (split_tansho_commaFree src).1 row hrow
  · subst h
    exact (split_tansho_commaFree src).2 row hrow

/-- Every row of the two-strategy single-page win/place extraction has
comma-free odds text. -/
theorem winPlacePageRows_commaFree {soup : Soup} {bt : String}
    (hbt : bt = "単勝" ∨ bt = "複勝") {row : Dict}
    (hrow : row ∈ winPlacePageRows soup bt) : OddsCommaFree row := by
  unfold winPlacePageRows at hrow
  rcases hlook : alistGet (extract_odds_by_bet_type soup) bt with _ | rows0
  · rw [hlook] at hrow
    simp only [Option.getD_none] at hrow
    rw [if_pos (by simp)] at hrow
    rcases hlook2 : alistGet (extract_win_place_by_table_position soup) bt with _ | rows1
    · rw [hlook2] at hrow
      exact absurd hrow (by simp)
    · rw [hlook2] at hrow
      exact extract_win_place_commaFree hlook2 (by simpa using hrow)
  · rw [hlook] at hrow
    simp only [Option.getD_some] at hrow
    by_cases hemp : rows0.isEmpty
    · rw [if_pos hemp] at hrow
      rcases hlook2 : alistGet (extract_win_place_by_table_position soup) bt with _ | rows1
      · rw [hlook2] at hrow
        exact absurd hrow (by simp)
      · rw [hlook2] at hrow
        exact extract_win_place_commaFree hlook2 (by simpa using hrow)
    · rw [if_neg hemp] at hrow
      exact heading_rows_commaFree hbt hlook hrow

/-- Removing one key from a dict leaves lookups of other keys intact. -/
theorem alistGet_filter_ne {α : Type} {d : List (String × α)} {k k' : String}
    (h : k' ≠ k) :
    alistGet (d.filter (fun p => p.1 ≠ k)) k' = alistGet d k' := by
  induction d with
  | nil => rfl
  | cons p rest ih =>
    obtain ⟨k1, v1⟩ := p
    by_cases h1 : k1 = k
    · subst h1
      rw [List.filter_cons_of_neg (by simp), ih]
      simp only [alistGet]
      rw [if_neg (Ne.symm h)]
    · rw [List.filter_cons_of_pos (by simpa using h1)]
      simp only [alistGet]
      by_cases h2 : k1 = k'
      · rw [if_pos h2, if_pos h2]
      · rw [if_neg h2, if_neg h2, ih]

/-- Popping `_cart_item` does not touch the odds text. -/
theorem dictPop_commaFree {row : Dict} (h : OddsCommaFree row) :
    OddsCommaFree (dictPop row "_cart_item" "").2 := by
  unfold OddsCommaFree dictGetD at *
  unfold dictPop
  rcases hget : alistGet row "_cart_item" with _ | v
  · exact h
  · simp only
    rw [alistGet_filter_ne (by decide)]
    exact h

/-- The keyed merge of popped cart rows preserves comma-freedom of all
stored rows. -/
theorem popMerge_commaFree (rows : List Dict) :
    ∀ (acc : List (String × Dict)),
      (∀ q ∈ acc, OddsCommaFree q.2) →
      (∀ row ∈ rows, OddsCommaFree row) →
      ∀ q ∈ rows.foldl (fun acc row =>
          let popped := dictPop row "_cart_item" ""
          if popped.1 = "" then acc else upsert popped.1 popped.2 acc) acc,
        OddsCommaFree q.2 := by
  induction rows with
  | nil => exact fun acc hacc _ => hacc
  | cons r rest ih =>
    intro acc hacc hrows q hq
    rw [List.foldl_cons] at hq
    refine ih _ ?_ (fun row hrow => hrows row (List.mem_cons_of_mem _ hrow)) q hq
    intro q' hq'
    simp only at hq'
    by_cases hcond : (dictPop r "_cart_item" "").1 = ""
    · rw [if_pos hcond] at hq'
      exact hacc q' hq'
    · rw [if_neg hcond] at hq'
      rcases mem_upsert_cases hq' with h' | h'
      · rw [h']
        exact dictPop_commaFree (hrows r (List.mem_cons_self _ _))
      · exact hacc q' h'

/-- One axis fetch keeps all merged rows comma-free. -/
theorem tripleJikuStep_commaFree {env : Env} {url bt : String} {jiku : String}
    {st st' : List (String × Dict) × List (String × String)}
    (h : tripleJikuStep env url bt st jiku = .ok st')
    (hst : ∀ q ∈ st.1, OddsCommaFree q.2) : ∀ q ∈ st'.1, OddsCommaFree q.2 := by
  simp only [tripleJikuStep] at h
  cases hfetch : env.fetchHtml (url ++ "&jiku=" ++ jiku) with
  | error msg =>
    rw [hfetch, except_bind_err] at h
    exact absurd h (by simp)
  | ok jiku_soup =>
    rw [hfetch, except_bind_ok] at h
    injection h with he
    rw [← he]
    exact popMerge_commaFree _ st.1 hst
      (fun row hrow => cart_rows_commaFree hrow)

/-- The whole per-axis fold keeps all merged rows comma-free. -/
theorem tripleJiku_foldlM_commaFree {env : Env} {url bt : String}
    (jikus : List String) :
    ∀ (st : List (String × Dict) × List (String × String)),
      (∀ q ∈ st.1, OddsCommaFree q.2) →
      ∀ res, jikus.foldlM (tripleJikuStep env url bt) st = .ok res →
        ∀ q ∈ res.1, OddsCommaFree q.2 := by
  induction jikus with
  | nil =>
    intro st hst res h
    injection h with he
    rw [← he]
    exact hst
  | cons j rest ih =>
    intro st hst res h
    rw [List.foldlM_cons] at h
    cases hstep : tripleJikuStep env url bt st j with
    | error msg =>
      rw [hstep, except_bind_err] at h
      exact absurd h (by simp)
    | ok st' =>
      rw [hstep, except_bind_ok] at h
      exact ih st' (tripleJikuStep_commaFree hstep hst) res h

/-- Every row collected by `_collect_triple_full_odds` has comma-free
odds text. -/
theorem collect_triple_commaFree {env : Env} {url bt : String}
    {entries : List Dict} {rows : List Dict} {urls : List (String × String)}
    (h : collect_triple_full_odds env url bt entries = .ok (rows, urls)) :
    ∀ row ∈ rows, OddsCommaFree row := by
  simp only [collect_triple_full_odds] at h
  cases hfetch : env.fetchHtml url with
  | error msg =>
    rw [hfetch, except_bind_err] at h
    exact absurd h (by simp)
  | ok soup =>
    rw [hfetch, except_bind_ok] at h
    cases hfold : ((if (extract_jiku_values soup).isEmpty then
        extract_horse_numbers_from_entries entries else
        extract_jiku_values soup).foldlM (tripleJikuStep env url bt) ([], [])) with
    | error msg =>
      rw [hfold, except_bind_err] at h
      exact absurd h (by simp)
    | ok st =>
      rw [hfold, except_bind_ok] at h
      injection h with he
      intro row hrow
      have hrows : row ∈ sortByKey
          (fun row => combo_sort_key (dictGetD row "組み合わせ" "")) (st.1.map (·.2)) := by
        have := congrArg Prod.fst he
        simp only at this
        rw [this]
        exact hrow
      rw [mem_sortByKey, List.mem_map] at hrows
      obtain ⟨q, hqmem, hqeq⟩ := hrows
      rw [← hqeq]
      exact tripleJiku_foldlM_commaFree _ ([], []) (by simp) st hfold q hqmem


/-- A successful API attempt yields only comma-free rows. -/
theorem apiAttempt_commaFree {env : Env} {race_id : Option String} {bt : String}
    {entries : List Dict} {primary_url : String} {urls : List (String × String)}
    {result : List Dict × List (String × String)}
    (h : apiAttempt env race_id bt entries primary_url urls = some result) :
    ∀ row ∈ result.1, OddsCommaFree row := by
  rcases race_id with _ | rid
  · simp only [apiAttempt] at h
    exact absurd h (by simp)
  · simp only [apiAttempt] at h
    by_cases hr : rid = ""
    · rw [if_pos hr] at h
      exact absurd h (by simp)
    · rw [if_neg hr] at h
      rcases hmap : alistGet API_ODDS_TYPE_MAP bt with _ | api_type
      · simp only [hmap] at h
        exact absurd h (by simp)
      · simp only [hmap] at h
        rcases hfetch : fetch_jra_odds_payload env rid api_type primary_url with msg | payload
        · simp only [hfetch] at h
          exact absurd h (by simp)
        · simp only [hfetch] at h
          by_cases hemp : (extract_odds_rows_from_api_payload
              (payload.getD (J.obj [])) bt entries).isEmpty
          · rw [if_pos hemp] at h
            exact absurd h (by simp)
          · rw [if_neg hemp] at h
            injection h with he
            intro row hrow
            rw [← he] at hrow
            exact api_rows_commaFree hrow

/-- Every row from the win/place HTML branch has comma-free odds text. -/
theorem collectWinPlaceHtml_commaFree {env : Env} {bt primary_url : String}
    {abroad_url : Option String} {urls urls2 : List (String × String)}
    {rows : List Dict}
    (hbt : bt = "単勝" ∨ bt = "複勝")
    (h : collectWinPlaceHtml env bt primary_url abroad_url urls = .ok (rows, urls2)) :
    ∀ row ∈ rows, OddsCommaFree row := by
  have key : ∃ soup, rows = winPlacePageRows soup bt := by
    rcases abroad_url with _ | ab <;> simp only [collectWinPlaceHtml] at h
    · cases hfetch : env.fetchHtml primary_url with
      | error msg =>
        rw [hfetch, except_bind_err] at h
        exact absurd h (by simp)
      | ok soup =>
        rw [hfetch, except_bind_ok] at h
        by_cases hr : ¬ (winPlacePageRows soup bt).isEmpty
        · rw [if_pos hr] at h
          injection h with he
          exact ⟨soup, (congrArg Prod.fst he).symm⟩
        · rw [if_neg hr] at h
          injection h with he
          exact ⟨soup, (congrArg Prod.fst he).symm⟩
    · cases hfetch : env.fetchHtml primary_url with
      | error msg =>
        rw [hfetch, except_bind_err] at h
        exact absurd h (by simp)
      | ok soup =>
        rw [hfetch, except_bind_ok] at h
        by_cases hr : ¬ (winPlacePageRows soup bt).isEmpty
        · rw [if_pos hr] at h
          injection h with he
          exact ⟨soup, (congrArg Prod.fst he).symm⟩
        · rw [if_neg hr] at h
          by_cases hne : ab ≠ primary_url
          · rw [if_pos hne] at h
            cases hfetch2 : env.fetchHtml ab with
            | error msg =>
              rw [hfetch2, except_bind_err] at h
              exact absurd h (by simp)
            | ok soup2 =>
              rw [hfetch2, except_bind_ok] at h
              by_cases hr2 : ¬ (winPlacePageRows soup2 bt).isEmpty
              · rw [if_pos hr2] at h
                injection h with he
                exact ⟨soup2, (congrArg Prod.fst he).symm⟩
              · rw [if_neg hr2] at h
                injection h with he
                exact ⟨soup, (congrArg Prod.fst he).symm⟩
          · rw [if_neg hne] at h
            injection h with he
            exact ⟨soup, (congrArg Prod.fst he).symm⟩
  obtain ⟨soup, hs⟩ := key
  intro row hrow
  rw [hs] at hrow
  exact winPlacePageRows_commaFree hbt hrow

/-- Every row from the trio/trifecta branch has comma-free odds text. -/
theorem collectTripleBranch_commaFree {env : Env} {bt primary_url : String}
    {abroad_url : Option String} {entries : List Dict}
    {urls urls2 : List (String × String)} {rows : List Dict}
    (h : collectTripleBranch env bt primary_url abroad_url entries urls =
      .ok (rows, urls2)) :
    ∀ row ∈ rows, OddsCommaFree row := by
  rcases abroad_url with _ | ab <;> simp only [collectTripleBranch] at h
  · cases hc : collect_triple_full_odds env primary_url bt entries with
    | error msg =>
      rw [hc, except_bind_err] at h
      exact absurd h (by simp)
    | ok result =>
      simp only [hc, except_bind_ok] at h
      by_cases hr : ¬ result.1.isEmpty
      · rw [if_pos hr] at h
        injection h with he
        intro row hrow
        have hre : rows = result.1 := (congrArg Prod.fst he).symm
        rw [hre] at hrow
        exact collect_triple_commaFree hc row hrow
      · rw [if_neg hr] at h
        injection h with he
        intro row hrow
        have hre : rows = result.1 := (congrArg Prod.fst he).symm
        rw [hre] at hrow
        exact collect_triple_commaFree hc row hrow
  · cases hc : collect_triple_full_odds env primary_url bt entries with
    | error msg =>
      rw [hc, except_bind_err] at h
      exact absurd h (by simp)
    | ok result =>
      simp only [hc, except_bind_ok] at h
      by_cases hr : ¬ result.1.isEmpty
      · rw [if_pos hr] at h
        injection h with he
        intro row hrow
        have hre : rows = result.1 := (congrArg Prod.fst he).symm
        rw [hre] at hrow
        exact collect_triple_commaFree hc row hrow
      · rw [if_neg hr] at h
        by_cases hne : ab ≠ primary_url
        · rw [if_pos hne] at h
          cases hc2 : collect_triple_full_odds env ab bt entries with
          | error msg =>
            rw [hc2, except_bind_err] at h
            exact absurd h (by simp)
          | ok fallback =>
            simp only [hc2, except_bind_ok] at h
            by_cases hr2 : ¬ fallback.1.isEmpty
            · rw [if_pos hr2] at h
              injection h with he
              intro row hrow
              have hre : rows = fallback.1 := (congrArg Prod.fst he).symm
              rw [hre] at hrow
              exact collect_triple_commaFree hc2 row hrow
            · rw [if_neg hr2] at h
              injection h with he
              intro row hrow
              have hre : rows = result.1 := (congrArg Prod.fst he).symm
              rw [hre] at hrow
              exact collect_triple_commaFree hc row hrow
        · rw [if_neg hne] at h
          injection h with he
          intro row hrow
          have hre : rows = result.1 := (congrArg Prod.fst he).symm
          rw [hre] at hrow
          exact collect_triple_commaFree hc row hrow

/-- Every row from the cart-cell branch has comma-free odds text. -/
theorem collectCartBranch_commaFree {env : Env} {bt primary_url : String}
    {abroad_url : Option String} {urls urls2 : List (String × String)}
    {rows : List Dict}
    (h : collectCartBranch env bt primary_url abroad_url urls = .ok (rows, urls2)) :
    ∀ row ∈ rows, OddsCommaFree row := by
  have key : (∃ soup, rows = extract_cart_items soup bt) ∨ rows = [] := by
    rcases abroad_url with _ | ab <;> simp only [collectCartBranch] at h
    · cases hfetch : env.fetchHtml primary_url with
      | error msg =>
        rw [hfetch, except_bind_err] at h
        exact absurd h (by simp)
      | ok soup =>
        rw [hfetch, except_bind_ok] at h
        by_cases hr : ¬ (extract_cart_items soup bt).isEmpty
        · rw [if_pos hr] at h
          injection h with he
          exact Or.inl ⟨soup, (congrArg Prod.fst he).symm⟩
        · rw [if_neg hr] at h
          injection h with he
          exact Or.inl ⟨soup, (congrArg Prod.fst he).symm⟩
    · cases hfetch : env.fetchHtml primary_url with
      | error msg =>
        rw [hfetch, except_bind_err] at h
        exact absurd h (by simp)
      | ok soup =>
        rw [hfetch, except_bind_ok] at h
        by_cases hr : ¬ (extract_cart_items soup bt).isEmpty
        · rw [if_pos hr] at h
          injection h with he
          exact Or.inl ⟨soup, (congrArg Prod.fst he).symm⟩
        · rw [if_neg hr] at h
          by_cases hne : ab ≠ primary_url
          · rw [if_pos hne] at h
            cases hfetch2 : env.fetchHtml ab with
            | error msg =>
              rw [hfetch2, except_bind_err] at h
              exact absurd h (by simp)
            | ok soup2 =>
              rw [hfetch2, except_bind_ok] at h
              by_cases hr2 : ¬ (extract_cart_items soup2 bt).isEmpty
              · rw [if_pos hr2] at h
                injection h with he
                exact Or.inl ⟨soup2, (congrArg Prod.fst he).symm⟩
              · rw [if_neg hr2] at h
                injection h with he
                exact Or.inl ⟨soup, (congrArg Prod.fst he).symm⟩
          · rw [if_neg hne] at h
            injection h with he
            exact Or.inl ⟨soup, (congrArg Prod.fst he).symm⟩
  rcases key with ⟨soup, hs⟩ | hs
  · intro row hrow
    rw [hs] at hrow
    exact cart_rows_commaFree hrow
  · intro row hrow
    rw [hs] at hrow
    exact absurd hrow (by simp)

/-- Every row returned by `_collect_full_odds_for_bet_type` has comma-free
odds text, over all three strategies. -/
theorem collect_full_commaFree {env : Env} {race_id : Option String}
    {bt : String} {entries : List Dict} {rows : List Dict}
    {urls : List (String × String)}
    (h : collect_full_odds_for_bet_type env race_id bt entries = .ok (rows, urls)) :
    ∀ row ∈ rows, OddsCommaFree row := by
  simp only [collect_full_odds_for_bet_type] at h
  by_cases hn : (build_odds_type_url race_id bt).isNone ∧
      (build_abroad_type_url race_id bt).isNone
  · rw [if_pos hn] at h
    injection h with he
    intro row hrow
    have hre : rows = [] := (congrArg Prod.fst he).symm
    rw [hre] at hrow
    exact absurd hrow (by simp)
  · rw [if_neg hn] at h
    rcases hatt : apiAttempt env race_id bt entries
        (((build_odds_type_url race_id bt).orElse
          (fun _ => build_abroad_type_url race_id bt)).getD "")
        [(bt, ((build_odds_type_url race_id bt).orElse
          (fun _ => build_abroad_type_url race_id bt)).getD "")] with _ | result
    · simp only [hatt] at h
      by_cases hbt1 : bt = "単勝" ∨ bt = "複勝"
      · rw [if_pos hbt1] at h
        exact collectWinPlaceHtml_commaFree hbt1 h
      · rw [if_neg hbt1] at h
        by_cases hbt2 : bt = "三連複" ∨ bt = "三連単"
        · rw [if_pos hbt2] at h
          exact collectTripleBranch_commaFree h
        · rw [if_neg hbt2] at h
          exact collectCartBranch_commaFree h
    · simp only [hatt] at h
      injection h with he
      intro row hrow
      have hre : rows = result.1 := (congrArg Prod.fst he).symm
      rw [hre] at hrow
      exact apiAttempt_commaFree hatt row hrow


/-- Elements of a keyed fold of upserts are old entries or carry the
key's computed value. -/
theorem mem_foldl_upsert_fn_cases {α : Type} (f : String → α) {q : String × α}
    (ks : List String) :
    ∀ (acc : List (String × α)),
      q ∈ ks.foldl (fun a k => upsert k (f k) a) acc →
      q ∈ acc ∨ ∃ k, k ∈ ks ∧ q.2 = f k := by
  induction ks with
  | nil => exact fun acc h => Or.inl h
  | cons k rest ih =>
    intro acc h
    rw [List.foldl_cons] at h
    rcases ih (upsert k (f k) acc) h with h' | ⟨k', hk', he⟩
    · rcases mem_upsert_cases h' with h'' | h''
      · exact Or.inr ⟨k, List.mem_cons_self _ _, by rw [h'']⟩
      · exact Or.inl h''
    · exact Or.inr ⟨k', List.mem_cons_of_mem _ hk', he⟩

/-- Lookup through a keyed fold of upserts. -/
theorem alistGet_foldl_upsert_fn {α : Type} (f : String → α) (ks : List String)
    (key : String) :
    ∀ acc, alistGet (ks.foldl (fun a k => upsert k (f k) a) acc) key =
      if key ∈ ks then some (f key) else alistGet acc key := by
  induction ks with
  | nil =>
    intro acc
    rw [List.foldl_nil, if_neg (List.not_mem_nil key)]
  | cons b rest ih =>
    intro acc
    rw [List.foldl_cons, ih]
    by_cases hk : key ∈ rest
    · rw [if_pos hk, if_pos (List.mem_cons_of_mem _ hk)]
    · rw [if_neg hk]
      by_cases he : key = b
      · subst he
        rw [alistGet_upsert_self, if_pos (List.mem_cons_self _ _)]
      · rw [alistGet_upsert_ne _ _ he,
          if_neg (by simp [List.mem_cons, he, hk] : ¬ key ∈ b :: rest)]

/-- The odds accumulator of the scrape loop is a keyed fold of upserts. -/
theorem scrape_foldl_fst (env : Env) (race_id : Option String)
    (race_date : Option String) (entries : List Dict) (bts : List String) :
    ∀ acc, (bts.foldl (scrapeStep env race_id race_date entries) acc).1 =
      bts.foldl (fun a k => upsert k (scrapeOddsFor env race_id entries k) a) acc.1 := by
  induction bts with
  | nil => exact fun acc => rfl
  | cons b rest ih =>
    intro acc
    rw [List.foldl_cons, List.foldl_cons, ih]
    rfl

/-- The status accumulator of the scrape loop is a keyed fold of upserts. -/
theorem scrape_foldl_status (env : Env) (race_id : Option String)
    (race_date : Option String) (entries : List Dict) (bts : List String) :
    ∀ acc, (bts.foldl (scrapeStep env race_id race_date entries) acc).2.1 =
      bts.foldl
        (fun a k => upsert k (scrapeStatusFor env race_id race_date entries k) a)
        acc.2.1 := by
  induction bts with
  | nil => exact fun acc => rfl
  | cons b rest ih =>
    intro acc
    rw [List.foldl_cons, List.foldl_cons, ih]
    rfl

/-- The synthetic error row stores no odds text at all. -/
theorem scrapeErrorRow_commaFree (msg : String) (u : Option String) :
    OddsCommaFree (scrapeErrorRow msg u) := by
  unfold OddsCommaFree scrapeErrorRow dictGetD
  simp [alistGet]

/-- C3: thousands separators are removed before storage — in every result
`scrape` returns, every row of every bet type's odds list (API rows,
heading-routed or positional win/place rows, triple-axis rows, cart rows,
and the synthetic error rows alike) has a comma-free odds text. -/
theorem C3_odds_comma_stripped (env : Env) (race_url : String)
    (res : ScrapeResult) (h : scrape env race_url = .ok res) :
    ∀ bt rows, (bt, rows) ∈ res.odds → ∀ row ∈ rows,
      ',' ∉ (dictGetD row "オッズ" "").toList := by
  simp only [scrape] at h
  cases hfetch : env.fetchHtml race_url with
  | error msg =>
    rw [hfetch, except_bind_err] at h
    exact absurd h (by simp)
  | ok soup =>
    simp only [hfetch, except_bind_ok] at h
    injection h with he
    intro bt rows hmem row hrow
    have hodds : res.odds = (BET_TYPES.foldl
        (scrapeStep env (extract_race_id race_url)
          (extract_race_date (extract_race_id race_url))
          (extract_race_entries soup))
        (BET_TYPES.map (fun b => (b, [])), [],
          discover_odds_links env soup race_url)).1 := by
      rw [← he]
    rw [hodds, scrape_foldl_fst] at hmem
    rcases mem_foldl_upsert_fn_cases _ _ _ hmem with hinit | ⟨k, _, hrowseq⟩
    · obtain ⟨a, _, haeq⟩ := List.mem_map.mp hinit
      have hr0 : rows = [] := (congrArg Prod.snd haeq).symm
      rw [hr0] at hrow
      exact absurd hrow (by simp)
    · have hre : rows = scrapeOddsFor env (extract_race_id race_url)
          (extract_race_entries soup) k := hrowseq
      rcases hc : collect_full_odds_for_bet_type env (extract_race_id race_url) k
          (extract_race_entries soup) with msg | pair
      · rw [hre] at hrow
        simp only [scrapeOddsFor, hc] at hrow
        have hrr : row = scrapeErrorRow msg
            (scrapeFailedUrl (extract_race_id race_url) k) := by
          simpa using hrow
        rw [hrr]
        exact scrapeErrorRow_commaFree msg _
      · rw [hre] at hrow
        simp only [scrapeOddsFor, hc] at hrow
        exact collect_full_commaFree hc row hrow


/-- A win payload whose only odds entry prices horse 3 at 4.5. -/
def winPayloadC3 : J :=
  .obj [("data", .obj [("odds", .obj [("1", .obj [("3", .arr [.s "4.5"])])])])]

/-- An environment serving empty pages and a win-odds API payload. -/
def envC3 : Env where
  fetchHtml := fun _ => .ok {}
  rawPayload := fun _ t _ => if t = "1" then .ok winPayloadC3 else .error "api unavailable"
  today := (2024, 1, 1)
  urljoin := fun _ h => h

def urlC3 : String := "https://race.netkeiba.com/race/shutuba.html?race_id=202401010101"

/-- The result `scrape` produces in that environment. -/
def resC3 : ScrapeResult :=
  (scrape envC3 urlC3).toOption.getD ⟨"", none, none, none, [], [], [], []⟩

theorem C3_witness :
    ',' ∉ (dictGetD [("馬番", "3"), ("馬名", ""), ("オッズ", "4.5")] "オッズ" "").toList :=
  C3_odds_comma_stripped envC3 urlC3 resC3 (by rfl) "単勝"
    [[("馬番", "3"), ("馬名", ""), ("オッズ", "4.5")]] (by decide)
    [("馬番", "3"), ("馬名", ""), ("オッズ", "4.5")] (by decide)

end C3CommaFree

section C2ErrorIsolation

/-- The result record `scrape` assembles once the race page is fetched. -/
def scrapeResFor (env : Env) (race_url : String) (soup : Soup) : ScrapeResult :=
  let race_id := extract_race_id race_url
  let race_date := extract_race_date race_id
  let entries := extract_race_entries soup
  let init : List (String × List Dict) × List (String × OddsStatus) ×
      List (String × String) :=
    (BET_TYPES.map (fun bt => (bt, [])), [], discover_odds_links env soup race_url)
  let fin := BET_TYPES.foldl (scrapeStep env race_id race_date entries) init
  ⟨race_url, race_id, extract_race_name soup, race_date, entries,
    fin.1, fin.2.1, fin.2.2⟩

/-- A successful race-page fetch makes `scrape` succeed with that record. -/
theorem scrape_ok_of_fetch {env : Env} {race_url : String} {soup : Soup}
    (hfetch : env.fetchHtml race_url = .ok soup) :
    scrape env race_url = .ok (scrapeResFor env race_url soup) := by
  simp only [scrape]
  rw [hfetch]
  rfl

/-- Odds lookup in the assembled record. -/
theorem scrapeResFor_odds (env : Env) (race_url : String) (soup : Soup)
    {bt : String} (hbt : bt ∈ BET_TYPES) :
    alistGet (scrapeResFor env race_url soup).odds bt =
      some (scrapeOddsFor env (extract_race_id race_url)
        (extract_race_entries soup) bt) := by
  have h1 : (scrapeResFor env race_url soup).odds =
      (BET_TYPES.foldl (scrapeStep env (extract_race_id race_url)
        (extract_race_date (extract_race_id race_url)) (extract_race_entries soup))
        (BET_TYPES.map (fun b => (b, [])), [],
          discover_odds_links env soup race_url)).1 := rfl
  rw [h1, scrape_foldl_fst, alistGet_foldl_upsert_fn, if_pos hbt]

/-- Status lookup in the assembled record. -/
theorem scrapeResFor_status (env : Env) (race_url : String) (soup : Soup)
    {bt : String} (hbt : bt ∈ BET_TYPES) :
    alistGet (scrapeResFor env race_url soup).odds_status bt =
      some (scrapeStatusFor env (extract_race_id race_url)
        (extract_race_date (extract_race_id race_url))
        (extract_race_entries soup) bt) := by
  have h1 : (scrapeResFor env race_url soup).odds_status =
      (BET_TYPES.foldl (scrapeStep env (extract_race_id race_url)
        (extract_race_date (extract_race_id race_url)) (extract_race_entries soup))
        (BET_TYPES.map (fun b => (b, [])), [],
          discover_odds_links env soup race_url)).2.1 := rfl
  rw [h1, scrape_foldl_status, alistGet_foldl_upsert_fn, if_pos hbt]

/-- C2 (amended): once the initial race-page fetch succeeds, `scrape`
returns a result record; its odds and status maps hold an entry for every
one of the 8 bet types, each entry being that bet type's own collection
outcome (so one bet type's failure cannot affect another's entry); and a
bet type whose collection failed is reported with status "error", row
count 0 and the failure text as message, alongside a synthetic error row.
The initial fetch itself is not guarded: its failure propagates out of
`scrape`. -/
theorem C2_scrape_isolation (env : Env) (race_url : String) (soup : Soup)
    (hfetch : env.fetchHtml race_url = .ok soup) :
    ∃ res, scrape env race_url = .ok res ∧
      (∀ bt ∈ BET_TYPES,
        alistGet res.odds bt = some (scrapeOddsFor env (extract_race_id race_url)
          (extract_race_entries soup) bt) ∧
        alistGet res.odds_status bt = some (scrapeStatusFor env
          (extract_race_id race_url) (extract_race_date (extract_race_id race_url))
          (extract_race_entries soup) bt)) ∧
      (∀ bt ∈ BET_TYPES, ∀ msg,
        collect_full_odds_for_bet_type env (extract_race_id race_url) bt
          (extract_race_entries soup) = .error msg →
        alistGet res.odds_status bt =
          some ⟨"error", 0, msg, scrapeFailedUrl (extract_race_id race_url) bt⟩ ∧
        alistGet res.odds bt =
          some [scrapeErrorRow msg (scrapeFailedUrl (extract_race_id race_url) bt)]) := by
  refine ⟨scrapeResFor env race_url soup, scrape_ok_of_fetch hfetch, ?_, ?_⟩
  · intro bt hbt
    exact ⟨scrapeResFor_odds env race_url soup hbt,
      scrapeResFor_status env race_url soup hbt⟩
  · intro bt hbt msg hc
    constructor
    · rw [scrapeResFor_status env race_url soup hbt]
      simp only [scrapeStatusFor, hc]
    · rw [scrapeResFor_odds env race_url soup hbt]
      simp only [scrapeOddsFor, hc]

/-- An environment whose every page fetch fails. -/
def envC2bad : Env where
  fetchHtml := fun _ => .error "network failure"
  rawPayload := fun _ _ _ => .error "api unavailable"
  today := (2024, 1, 1)
  urljoin := fun _ h => h

/-- C2 (counterexample): the race-page fetch happens before the
per-bet-type guard, so its failure propagates out of `scrape` — the
top-level call does not always return a result record. -/
theorem C2_counterexample :
    scrape envC2bad "https://race.netkeiba.com/race/shutuba.html?race_id=202401010101" =
      .error "network failure" := rfl

/-- An environment serving empty pages, with the odds API down. -/
def envC2w : Env where
  fetchHtml := fun _ => .ok {}
  rawPayload := fun _ _ _ => .error "api unavailable"
  today := (2024, 1, 1)
  urljoin := fun _ h => h

def urlC2w : String := "https://race.netkeiba.com/race/shutuba.html?race_id=202401010101"

theorem C2_witness :
    envC2w.fetchHtml urlC2w = .ok {} ∧
    (∃ res, scrape envC2w urlC2w = .ok res ∧
      (∀ bt ∈ BET_TYPES,
        alistGet res.odds bt = some (scrapeOddsFor envC2w (extract_race_id urlC2w)
          (extract_race_entries {}) bt) ∧
        alistGet res.odds_status bt = some (scrapeStatusFor envC2w
          (extract_race_id urlC2w) (extract_race_date (extract_race_id urlC2w))
          (extract_race_entries {}) bt)) ∧
      (∀ bt ∈ BET_TYPES, ∀ msg,
        collect_full_odds_for_bet_type envC2w (extract_race_id urlC2w) bt
          (extract_race_entries {}) = .error msg →
        alistGet res.odds_status bt =
          some ⟨"error", 0, msg, scrapeFailedUrl (extract_race_id urlC2w) bt⟩ ∧
        alistGet res.odds bt =
          some [scrapeErrorRow msg (scrapeFailedUrl (extract_race_id urlC2w) bt)])) :=
  ⟨rfl, C2_scrape_isolation envC2w urlC2w {} rfl⟩

end C2ErrorIsolation

end NkTracer
